import Mathlib

/-!
# Verification of the slide-align transcript/slide pipeline

A shallow embedding of the slide-align repository (TypeScript) in Lean 4.

Conventions of the embedding:
* Strings are modelled as `List Char` so that every operation is a
  structurally recursive, kernel-computable function.
* JavaScript numbers are modelled as exact rationals (`ℚ`).  `NaN` is
  modelled by `Option ℚ` (`none` = NaN); `undefined` by an outer `Option`.
  Binary floating point rounding noise and overflow to `Infinity` are not
  modelled: all values appearing in the claims are small exact decimals.
* Because `Rat.add`/`Rat.mul`/`Rat.div` are `@[irreducible]`, the numeric
  definitions below compute through `mkRat` on scaled integers, which the
  kernel can evaluate; each such definition comes with a `_spec` lemma
  proving it equal to the textbook field expression that appears in the
  JavaScript source, and all abstract reasoning goes through those lemmas.
* `parseInt(x, 10)` / `parseFloat(x)` are modelled without the exponent
  form and without `Infinity`, which never occur in timecode strings.
* Fallible JS code (`try`/`catch`) is modelled with `Option`/`Except`.
-/

namespace SlideAlign

/-- JS whitespace characters relevant to the inputs handled here
(`String.prototype.trim`, `\s`).  Exotic Unicode space characters are not
modelled; no claim involves them. -/
def isWsChar (c : Char) : Bool :=
  c = ' ' || c = '\t' || c = '\n' || c = '\r' || c = '\x0b' || c = '\x0c'

/-- ASCII decimal digit test (JS `\d`). -/
def isDigitChar (c : Char) : Bool :=
  '0' ≤ c && c ≤ '9'

/-- Numeric value of a digit character. -/
def digitVal (c : Char) : ℕ := c.toNat - '0'.toNat

/-- Value of a digit string, most significant digit first
(the value `parseInt` assigns to a pure digit string). -/
def digitsToNat (ds : List Char) : ℕ :=
  ds.foldl (fun acc c => 10 * acc + digitVal c) 0

/-- `String.prototype.trimStart` / the implicit whitespace skip of
`parseInt`/`parseFloat`. -/
def trimLeftChars (s : List Char) : List Char :=
  s.dropWhile isWsChar

/-- `String.prototype.trim` (both ends). -/
def trimChars (s : List Char) : List Char :=
  ((s.dropWhile isWsChar).reverse.dropWhile isWsChar).reverse

/-- `String.prototype.split(c)` with a single-character separator:
splits at every occurrence, keeping empty parts; always returns at least
one part. -/
def splitOnSep (c : Char) : List Char → List (List Char)
  | [] => [[]]
  | x :: xs =>
    if x = c then [] :: splitOnSep c xs
    else
      match splitOnSep c xs with
      | r :: rs => (x :: r) :: rs
      | [] => [[x]]

/-- Maximal digit run at the head (the `\d+` the number parsers consume). -/
def takeDigits (s : List Char) : List Char := s.takeWhile isDigitChar

/-- JS `parseInt(s, 10)`: skip whitespace, optional sign, then the longest
digit run; `NaN` (here `none`) if that run is empty.  Trailing garbage is
ignored, as in JS. -/
def jsParseInt (s : List Char) : Option ℤ :=
  let t := trimLeftChars s
  match t with
  | '-' :: rest =>
    if takeDigits rest = [] then none
    else some (-(digitsToNat (takeDigits rest) : ℤ))
  | '+' :: rest =>
    if takeDigits rest = [] then none
    else some (digitsToNat (takeDigits rest) : ℤ)
  | _ =>
    if takeDigits t = [] then none
    else some (digitsToNat (takeDigits t) : ℤ)

/-- `parseFloat` on an unsigned body, as a scaled-integer pair
`(mantissa, power-of-ten denominator)`: accepts `digits`, `digits.digits`,
`digits.`, or `.digits`; `none` (NaN) when no digit is found. -/
def jsParseFloatBody (t : List Char) : Option (ℤ × ℕ) :=
  let intPart := takeDigits t
  match t.dropWhile isDigitChar with
  | '.' :: rest =>
    let fracPart := takeDigits rest
    if intPart = [] && fracPart = [] then none
    else some ((digitsToNat intPart : ℤ) * 10 ^ fracPart.length +
      (digitsToNat fracPart : ℤ), 10 ^ fracPart.length)
  | _ =>
    if intPart = [] then none
    else some ((digitsToNat intPart : ℤ), 1)

/-- `parseFloat` after the whitespace skip: an optional sign followed by
the numeric body. -/
def jsParseFloatParts (t : List Char) : Option (ℤ × ℕ) :=
  match t with
  | '-' :: rest => (jsParseFloatBody rest).map fun p => (-p.1, p.2)
  | '+' :: rest => jsParseFloatBody rest
  | _ => jsParseFloatBody t

/-- JS `parseFloat(s)` (exponent forms and `Infinity` are not modelled —
they never occur in timecode strings). -/
def jsParseFloat (s : List Char) : Option ℚ :=
  (jsParseFloatParts (trimLeftChars s)).map fun p => mkRat p.1 p.2

/-- A JS number that may be NaN. -/
abbrev JsNum := Option ℚ

/-- `parseTime` (src/services/parserService.ts:3-13): split the trimmed
string on `:`; three parts are read as `H:MM:SS(.fff)`
(`parseInt(h) * 3600 + parseInt(m) * 60 + parseFloat(s)`), two parts as
`MM:SS(.fff)`, anything else yields `0`.  NaN propagates through the
arithmetic exactly as in JS: if any component fails to parse, the result
is NaN (`none`).  The sum is assembled over a common denominator with
`mkRat` so that it kernel-evaluates; `parseTime_formula3` and
`parseTime_formula2` recover the literal source expression. -/
def parseTime (timeStr : List Char) : JsNum :=
  match splitOnSep ':' (trimChars timeStr) with
  | [h, m, s] => do
    let hv ← jsParseInt h
    let mv ← jsParseInt m
    let sp ← jsParseFloatParts (trimLeftChars s)
    pure (mkRat ((hv * 3600 + mv * 60) * (sp.2 : ℤ) + sp.1) sp.2)
  | [m, s] => do
    let mv ← jsParseInt m
    let sp ← jsParseFloatParts (trimLeftChars s)
    pure (mkRat (mv * 60 * (sp.2 : ℤ) + sp.1) sp.2)
  | _ => some 0

/-- Cast form of `mkRat` as a division of casts. -/
theorem mkRat_cast_eq_div (n : ℤ) (d : ℕ) :
    (mkRat n d : ℚ) = (n : ℚ) / (d : ℚ) := by
  rw [Rat.mkRat_eq_divInt, Rat.divInt_eq_div]
  norm_num

/-- The Batteries `Rat.floor` agrees with the Mathlib floor. -/
theorem ratFloor_eq_floor (r : ℚ) : r.floor = ⌊r⌋ := by
  rw [Rat.floor_def', Rat.floor_def]

/-- The scale returned by `jsParseFloatBody` is a positive power of ten. -/
theorem jsParseFloatBody_den_pos {t : List Char} {p : ℤ × ℕ}
    (h : jsParseFloatBody t = some p) : 0 < p.2 := by
  unfold jsParseFloatBody at h
  split at h
  · dsimp only at h
    split at h
    · exact absurd h (by simp)
    · cases h; exact pow_pos (by norm_num) _
  · dsimp only at h
    split at h
    · exact absurd h (by simp)
    · cases h; norm_num

/-- The scale returned by `jsParseFloatParts` is a positive power of ten. -/
theorem jsParseFloatParts_den_pos {t : List Char} {p : ℤ × ℕ}
    (h : jsParseFloatParts t = some p) : 0 < p.2 := by
  unfold jsParseFloatParts at h
  split at h
  · obtain ⟨q, hq, rfl⟩ := Option.map_eq_some'.mp h
    simpa using jsParseFloatBody_den_pos hq
  · exact jsParseFloatBody_den_pos h
  · exact jsParseFloatBody_den_pos h

/-- `parseTime` on a three-part split is the literal source expression
`parseInt(h) * 3600 + parseInt(m) * 60 + parseFloat(s)`. -/
theorem parseTime_formula3 {ts h m s : List Char} {hv mv : ℤ} {sv : ℚ}
    (hsplit : splitOnSep ':' (trimChars ts) = [h, m, s])
    (hh : jsParseInt h = some hv) (hm : jsParseInt m = some mv)
    (hs : jsParseFloat s = some sv) :
    parseTime ts = some ((hv : ℚ) * 3600 + (mv : ℚ) * 60 + sv) := by
  obtain ⟨⟨sn, sd⟩, hp, rfl⟩ := Option.map_eq_some'.mp hs
  have hd : ((sd : ℚ)) ≠ 0 := by
    exact_mod_cast (jsParseFloatParts_den_pos hp).ne'
  unfold parseTime
  rw [hsplit]
  simp only [hh, hm, hp, Option.bind_eq_bind, Option.some_bind, Option.some.injEq,
    Option.pure_def]
  rw [mkRat_cast_eq_div, mkRat_cast_eq_div]
  push_cast
  field_simp

/-- `parseTime` on a two-part split is the literal source expression
`parseInt(m) * 60 + parseFloat(s)`. -/
theorem parseTime_formula2 {ts m s : List Char} {mv : ℤ} {sv : ℚ}
    (hsplit : splitOnSep ':' (trimChars ts) = [m, s])
    (hm : jsParseInt m = some mv) (hs : jsParseFloat s = some sv) :
    parseTime ts = some ((mv : ℚ) * 60 + sv) := by
  obtain ⟨⟨sn, sd⟩, hp, rfl⟩ := Option.map_eq_some'.mp hs
  have hd : ((sd : ℚ)) ≠ 0 := by
    exact_mod_cast (jsParseFloatParts_den_pos hp).ne'
  unfold parseTime
  rw [hsplit]
  simp only [hm, hp, Option.bind_eq_bind, Option.some_bind, Option.some.injEq,
    Option.pure_def]
  rw [mkRat_cast_eq_div, mkRat_cast_eq_div]
  push_cast
  field_simp

/-- `v / k` for a natural `k`, computed with `mkRat`. -/
def qdivNat (v : ℚ) (k : ℕ) : ℚ := mkRat v.num (v.den * k)

theorem qdivNat_spec (v : ℚ) (k : ℕ) : qdivNat v k = v / (k : ℚ) := by
  unfold qdivNat
  rw [mkRat_cast_eq_div]
  conv_rhs => rw [← Rat.num_div_den v]
  push_cast
  rw [div_div]

/-- Truncation toward zero, as JS `%` uses. -/
def ratTrunc (q : ℚ) : ℤ :=
  if 0 ≤ q then ⌊q⌋ else -⌊-q⌋

/-- `v - t` for an integer `t`, computed with `mkRat`. -/
def qsubInt (v : ℚ) (t : ℤ) : ℚ := mkRat (v.num - t * v.den) v.den

theorem qsubInt_spec (v : ℚ) (t : ℤ) : qsubInt v t = v - (t : ℚ) := by
  have hden : ((v.den : ℚ)) ≠ 0 := by exact_mod_cast v.pos.ne'
  unfold qsubInt
  rw [mkRat_cast_eq_div]
  conv_rhs => rw [← Rat.num_div_den v]
  push_cast
  field_simp
  ring

/-- JS `%` with a natural right operand (the only form the source uses):
`a - b * Math.trunc(a / b)`. -/
def jsModNat (v : ℚ) (k : ℕ) : ℚ := qsubInt v ((k : ℤ) * ratTrunc (qdivNat v k))

theorem jsModNat_spec (v : ℚ) (k : ℕ) :
    jsModNat v k = v - (k : ℚ) * (ratTrunc (v / (k : ℚ)) : ℚ) := by
  unfold jsModNat
  rw [qsubInt_spec, qdivNat_spec]
  push_cast
  ring

/-- Decimal digits of `n`, most significant first, via structural fuel
(`n.toString()` for a nonnegative integer).  The fuel argument makes the
function kernel-computable. -/
def renderNatAux : ℕ → ℕ → List Char
  | 0, _ => []
  | fuel + 1, n =>
    if n < 10 then [Char.ofNat ('0'.toNat + n)]
    else renderNatAux fuel (n / 10) ++ [Char.ofNat ('0'.toNat + n % 10)]

/-- `n.toString()` for `n : ℕ`. -/
def renderNat (n : ℕ) : List Char := renderNatAux (n + 1) n

/-- `${i}` for an integer-valued JS number. -/
def jsToStringInt (i : ℤ) : List Char :=
  if i < 0 then '-' :: renderNat i.natAbs else renderNat i.toNat

/-- `String.prototype.padStart(n, c)`. -/
def padStart (n : ℕ) (c : Char) (s : List Char) : List Char :=
  List.replicate (n - s.length) c ++ s

/-- Exactly two digits for the fractional part of `toFixed(2)`. -/
def twoDigits (k : ℕ) : List Char :=
  if k < 10 then '0' :: renderNat k else renderNat k

/-- `⌊q * 100 + 1 / 2⌋`, the integer the ECMAScript `toFixed(2)`
specification selects (nearest, ties toward the larger candidate),
computed with `mkRat`. -/
def roundHalfUp (q : ℚ) : ℤ := (mkRat (200 * q.num + q.den) (2 * q.den)).floor

theorem roundHalfUp_spec (q : ℚ) : roundHalfUp q = ⌊q * 100 + 1 / 2⌋ := by
  have hden : ((q.den : ℚ)) ≠ 0 := by exact_mod_cast q.pos.ne'
  have hcast : (mkRat (200 * q.num + q.den) (2 * q.den) : ℚ) = q * 100 + 1 / 2 := by
    rw [mkRat_cast_eq_div]
    conv_rhs => rw [← Rat.num_div_den q]
    push_cast
    field_simp
    ring
  unfold roundHalfUp
  rw [ratFloor_eq_floor, hcast]

/-- `q.toFixed(2)` on an exact rational: print the rounded value with
exactly two decimals.  Negative values (never produced by the codec on
valid input) render with a leading minus. -/
def toFixed2 (q : ℚ) : List Char :=
  if roundHalfUp q < 0 then
    '-' :: (renderNat ((roundHalfUp q).natAbs / 100) ++
      '.' :: twoDigits ((roundHalfUp q).natAbs % 100))
  else
    renderNat ((roundHalfUp q).toNat / 100) ++
      '.' :: twoDigits ((roundHalfUp q).toNat % 100)

/-- `secondsToHms` (src/services/parserService.ts:15-21).  The outer
`Option` is `undefined`, the inner one NaN.  A NaN input flows through
`Math.floor`/`%`/`toFixed` as NaN in JS; the resulting constant string is
spelled out here (it is exercised by no claim). -/
def secondsToHms (seconds : Option JsNum) : List Char :=
  match seconds with
  | none => "unknown".data
  | some none => "NaN:NaN:00NaN".data
  | some (some v) =>
    let h : ℤ := ⌊qdivNat v 3600⌋
    let m : ℤ := ⌊qdivNat (jsModNat v 3600) 60⌋
    let s : ℚ := jsModNat v 60
    jsToStringInt h ++ ':' :: (padStart 2 '0' (jsToStringInt m) ++
      ':' :: padStart 5 '0' (toFixed2 s))

-- Sanity checks of the codec embedding on concrete values.
example : parseTime "0:00:01.50".data = some (mkRat 3 2) := by decide
example : parseTime "10:05".data = some 605 := by decide
example : parseTime "a:b".data = none := by decide
example : parseTime "1:2:3:4".data = some 0 := by decide
example : secondsToHms (some (some (mkRat 3 2))) = "0:00:01.50".data := by decide
example : secondsToHms (some (some 605)) = "0:10:05.00".data := by decide
example : secondsToHms none = "unknown".data := by decide

/-- ASCII lowercasing of one character (`String.prototype.toLowerCase`
restricted to the ASCII range the subtitle keywords use). -/
def toLowerChar (c : Char) : Char :=
  if 'A' ≤ c && c ≤ 'Z' then Char.ofNat (c.toNat + 32) else c

/-- `String.prototype.toLowerCase`. -/
def lowerChars (s : List Char) : List Char := s.map toLowerChar

/-- `replace(/\r\n/g, '\n')`. -/
def replaceCrLf : List Char → List Char
  | '\r' :: '\n' :: rest => '\n' :: replaceCrLf rest
  | c :: rest => c :: replaceCrLf rest
  | [] => []

/-- One step of `split(/\n\n+/)`: fold state is
(finished blocks in reverse, current block in reverse, pending newlines). -/
def blocksStep (st : List (List Char) × List Char × ℕ) (c : Char) :
    List (List Char) × List Char × ℕ :=
  let (done, cur, nl) := st
  if c = '\n' then (done, cur, nl + 1)
  else if 2 ≤ nl then (cur.reverse :: done, [c], 0)
  else (done, c :: (List.replicate nl '\n' ++ cur), 0)

/-- `split(/\n\n+/)`: blocks are separated by runs of two or more
newline characters (the regex consumes each maximal run); a single
newline stays inside its block.  A trailing separator contributes a final
empty block, as in JS. -/
def splitBlocks (s : List Char) : List (List Char) :=
  let (done, cur, nl) := s.foldl blocksStep ([], [], 0)
  if 2 ≤ nl then (([] : List Char) :: cur.reverse :: done).reverse
  else ((List.replicate nl '\n' ++ cur).reverse :: done).reverse

/-- `split('-->')`, specialised to the arrow separator. -/
def splitArrow : List Char → List (List Char)
  | '-' :: '-' :: '>' :: rest => [] :: splitArrow rest
  | c :: rest =>
    match splitArrow rest with
    | r :: rs => (c :: r) :: rs
    | [] => [[c]]
  | [] => [[]]

/-- `includes('-->')`. -/
def containsArrow : List Char → Bool
  | '-' :: '-' :: '>' :: _ => true
  | _ :: rest => containsArrow rest
  | [] => false

/-- Whether a closing character occurs in the remainder (used to decide
if a markup deletion regex can match from the current position). -/
def containsChar (g : Char) : List Char → Bool
  | [] => false
  | c :: rest => c = g || containsChar g rest

/-- `replace(/<[^>]*>/g, '')` (and, with other brackets,
`replace(/\{.*?\}/g, '')` on single-line input): a two-state scanner.
In state `false` we copy characters, entering a deletion at an opening
bracket only when a closing bracket exists further on (otherwise the
regex cannot match there and the character is kept, as in JS); in state
`true` we discard up to and including the next closing bracket. -/
def stripDelimAux (o g : Char) : Bool → List Char → List Char
  | _, [] => []
  | false, c :: rest =>
    if c = o then
      if containsChar g rest then stripDelimAux o g true rest
      else c :: stripDelimAux o g false rest
    else c :: stripDelimAux o g false rest
  | true, c :: rest =>
    if c = g then stripDelimAux o g false rest
    else stripDelimAux o g true rest

/-- Remove every `<...>` tag (`replace(/<[^>]*>/g, '')`). -/
def stripTags (s : List Char) : List Char := stripDelimAux '<' '>' false s

/-- Remove every brace-delimited ASS override block
(`replace(/\x7b.*?\x7d/g, '')`; the input is a single line, so `.` never
meets a newline and the lazy `.*?` stops at the first closing brace). -/
def stripBraces (s : List Char) : List Char :=
  stripDelimAux (Char.ofNat 123) (Char.ofNat 125) false s

/-- `replace(/\\N/g, ' ')` — the two-character ASS line-break escape. -/
def replaceBackslashN : List Char → List Char
  | '\\' :: 'N' :: rest => ' ' :: replaceBackslashN rest
  | c :: rest => c :: replaceBackslashN rest
  | [] => []

/-- `join(sep)`. -/
def joinWith (sep : List Char) : List (List Char) → List Char
  | [] => []
  | [x] => x
  | x :: xs => x ++ sep ++ joinWith sep xs

/-- One canonical transcript line (`SubtitleLine` in src/types.ts):
`start`/`end` are JS numbers (possibly NaN), `speaker`/`text` strings.
`end` is a Lean keyword, hence the field name `stop`. -/
structure SubtitleLine where
  start : JsNum
  stop : JsNum
  speaker : List Char
  text : List Char
deriving DecidableEq, Repr

/-- `cleanSrtText` (src/services/parsers/srtParser.ts): strip
angle-bracket markup, then trim. -/
def cleanSrtText (text : List Char) : List Char := trimChars (stripTags text)

/-- The scan for the first line of a block containing `-->`
(`for` loop over `linesInBlock`); returns that line and the lines after
it (the lines before it — the numeric index — are discarded by the
caller). -/
def findArrowLine : List (List Char) → Option (List Char × List (List Char))
  | [] => none
  | l :: rest => if containsArrow l then some (l, rest) else findArrowLine rest

/-- One SRT block (the body of the `for` loop of `parseSrtFile`,
src/services/parsers/srtParser.ts:16-44). -/
def srtBlockToLine (block : List Char) : Option SubtitleLine :=
  let linesInBlock := splitOnSep '\n' (trimChars block)
  if linesInBlock.length < 2 then none
  else
    match findArrowLine linesInBlock with
    | none => none
    | some (timeLine, after) =>
      match splitArrow timeLine with
      | startStr :: endStr :: _ =>
        let textContent := joinWith " ".data after
        if startStr = [] ∨ endStr = [] ∨ textContent = [] then none
        else some ⟨parseTime startStr, parseTime endStr, "Unknown".data,
          cleanSrtText textContent⟩
      | _ => none
  -- the last case is unreachable: `containsArrow` guarantees ≥ 2 parts

/-- `parseSrtFile` (src/services/parsers/srtParser.ts:9-48). -/
def parseSrtFile (text : List Char) : List SubtitleLine :=
  (splitBlocks (replaceCrLf text)).filterMap srtBlockToLine

/-- `cleanVttText` (src/unnamed/part_003:4-7): strip tags, then trim. -/
def cleanVttText (text : List Char) : List Char := trimChars (stripTags text)

/-- The voice-span regex `^<v\s+([^>]+)>(.*)` of `extractSpeaker`:
after `<v` comes a maximal whitespace run, then the capture runs to the
first `>`.  When the character right after the run is already `>`, the
regex backtracks and the capture is the last whitespace character
(possible only when the run has length ≥ 2, since `\s+` still needs one
character). -/
def vttVoiceMatch (t : List Char) : Option (List Char × List Char) :=
  match t with
  | '<' :: 'v' :: rest =>
    let ws := rest.takeWhile isWsChar
    if ws = [] then none
    else
      match rest.dropWhile isWsChar with
      | '>' :: rest2 =>
        if 2 ≤ ws.length then
          match ws.getLast? with
          | some c => some ([c], rest2)
          | none => none
        else none
      | c :: rest1 =>
        let name := (c :: rest1).takeWhile (fun x => x ≠ '>')
        match (c :: rest1).dropWhile (fun x => x ≠ '>') with
        | '>' :: rest2 => some (name, rest2)
        | _ => none
      | [] => none
  | _ => none

/-- The simple-speaker regex `^([^:]+):\s+(.*)` of `extractSpeaker`:
the literal `:` can only match the first colon (the capture class
excludes colons), and `\s+` needs at least one whitespace character
after it. -/
def vttSimpleMatch (t : List Char) : Option (List Char × List Char) :=
  let p := t.takeWhile (fun x => x ≠ ':')
  match t.dropWhile (fun x => x ≠ ':') with
  | ':' :: rest =>
    if p = [] then none
    else if rest.takeWhile isWsChar = [] then none
    else some (p, rest.dropWhile isWsChar)
  | _ => none

/-- `extractSpeaker` (src/unnamed/part_003:9-21). -/
def extractSpeaker (text : List Char) : List Char × List Char :=
  match vttVoiceMatch text with
  | some (sp, tx) => (trimChars sp, tx)
  | none =>
    match vttSimpleMatch text with
    | some (sp, tx) => (trimChars sp, tx)
    | none => ("Unknown".data, text)

/-- One VTT block (the body of the `for` loop of `parseVttFile`,
src/unnamed/part_003:29-62). -/
def vttBlockToLine (block : List Char) : Option SubtitleLine :=
  let linesInBlock := splitOnSep '\n' (trimChars block)
  match linesInBlock with
  | [] => none
  | first :: _ =>
    if "WEBVTT".data.isPrefixOf first then none
    else if "NOTE".data.isPrefixOf first then none
    else
      match findArrowLine linesInBlock with
      | none => none
      | some (timeLine, after) =>
        match splitArrow timeLine with
        | startStr :: endStr :: _ =>
          let cleanEndStr :=
            match splitOnSep ' ' (trimChars endStr) with
            | t :: _ => t
            | [] => []
          let rawText := joinWith " ".data after
          let sp := extractSpeaker (cleanVttText rawText)
          if startStr = [] ∨ cleanEndStr = [] ∨ sp.2 = [] then none
          else some ⟨parseTime startStr, parseTime cleanEndStr, sp.1, sp.2⟩
        | _ => none

/-- `parseVttFile` (src/unnamed/part_003:23-66). -/
def parseVttFile (text : List Char) : List SubtitleLine :=
  (splitBlocks (replaceCrLf text)).filterMap vttBlockToLine

/-- `parseTextFile` (src/services/parsers/textParser.ts:3-25): each
non-empty blank-line-separated paragraph becomes one line with
`start = end = 0` and speaker `"Unknown"`. -/
def parseTextFile (text : List Char) : List SubtitleLine :=
  (splitBlocks (replaceCrLf text)).filterMap fun para =>
    let trimmed := trimChars para
    if trimmed = [] then none
    else some ⟨some 0, some 0, "Unknown".data, trimmed⟩

/-- `cleanAssText` (src/services/parserService.ts:102-104): strip ASS
override blocks, replace the line-break escape by a space, trim. -/
def cleanAssText (text : List Char) : List Char :=
  trimChars (replaceBackslashN (stripBraces text))

/-- `formatIdx[field] = index` on a JS object: overwrite in place or
append.  The list length is `Object.keys(formatIdx).length`. -/
def recInsert : List (List Char × ℕ) → List Char → ℕ → List (List Char × ℕ)
  | [], k, v => [(k, v)]
  | (k', v') :: rest, k, v =>
    if k' = k then (k, v) :: rest else (k', v') :: recInsert rest k v

/-- `formatIdx[key]` (`undefined` when absent). -/
def recLookup (k : List Char) : List (List Char × ℕ) → Option ℕ
  | [] => none
  | (k', v') :: rest => if k' = k then some v' else recLookup k rest

/-- `fields.forEach((field, index) => formatIdx[field] = index)`. -/
def buildFormatIdx (fields : List (List Char)) : List (List Char × ℕ) :=
  fields.enum.foldl (fun m p => recInsert m p.2 p.1) []

/-- JS `a || b` on an optional column index: `undefined` and the falsy
index `0` both fall through to the right operand. -/
def jsOrIdx (x : Option ℕ) (y : ℕ) : ℕ :=
  match x with
  | some n => if n = 0 then y else n
  | none => y

/-- A `Dialogue:` payload decoded against a declared `Format:` mapping
(src/services/parserService.ts:64-95).  Reading `.trim()` off an
`undefined` start/end column throws in JS and the surrounding
`try`/`catch` drops the line, hence the `Option` match on those two
columns; the speaker access uses `?.` and cannot throw. -/
def dialogueWithFormat (fmt : List (List Char × ℕ)) (payload : List Char) :
    Option SubtitleLine :=
  let parts := splitOnSep ',' payload
  let numFields := fmt.length
  let actualParts :=
    if numFields < parts.length then
      parts.take (numFields - 1) ++ [joinWith [','] (parts.drop (numFields - 1))]
    else parts
  match recLookup "start".data fmt >>= actualParts.get?,
      recLookup "end".data fmt >>= actualParts.get? with
  | some startStr, some endStr =>
    let speakerIdx :=
      jsOrIdx (recLookup "name".data fmt) (jsOrIdx (recLookup "actor".data fmt) 4)
    let speaker :=
      match actualParts.get? speakerIdx with
      | some sRaw => if trimChars sRaw = [] then "Unknown".data else trimChars sRaw
      | none => "Unknown".data
    let rawText :=
      match recLookup "text".data fmt >>= actualParts.get? with
      | some tRaw => tRaw
      | none => []
    some ⟨parseTime (trimChars startStr), parseTime (trimChars endStr),
      speaker, cleanAssText rawText⟩
  | _, _ => none

/-- A `Dialogue:` payload decoded without any declared `Format:`
(src/services/parserService.ts:51-63): requires at least 9
comma-separated parts, fixed columns 1/2/4, text from column 9 on. -/
def dialogueFallback (payload : List Char) : Option SubtitleLine :=
  let parts := splitOnSep ',' payload
  if parts.length < 9 then none
  else
    let speaker :=
      match parts.get? 4 with
      | some p4 => if trimChars p4 = [] then "Unknown".data else trimChars p4
      | none => "Unknown".data
    some ⟨parseTime ((parts.get? 1).getD []), parseTime ((parts.get? 2).getD []),
      speaker, cleanAssText (joinWith [','] (parts.drop 9))⟩

/-- The line loop of `parseAssFile`
(src/services/parserService.ts:31-97), carrying the
`eventsSection`/`formatIdx` state. -/
def assLines : Bool → Option (List (List Char × ℕ)) → List (List Char) →
    List SubtitleLine
  | _, _, [] => []
  | ev, fmt, l :: rest =>
    let ln := trimChars l
    if "[events]".data.isPrefixOf (lowerChars ln) then assLines true fmt rest
    else if !ev then assLines ev fmt rest
    else if "format:".data.isPrefixOf (lowerChars ln) then
      assLines ev
        (some (buildFormatIdx
          ((splitOnSep ',' (ln.drop 7)).map fun f => lowerChars (trimChars f)))) rest
    else if "dialogue:".data.isPrefixOf (lowerChars ln) then
      match fmt with
      | none => (dialogueFallback (trimLeftChars (ln.drop 9))).toList ++
          assLines ev fmt rest
      | some f => (dialogueWithFormat f (trimLeftChars (ln.drop 9))).toList ++
          assLines ev fmt rest
    else assLines ev fmt rest

/-- `parseAssFile` (src/services/parserService.ts:23-100).  The source
splits on `/\r?\n/`; splitting on `\n` alone is equivalent here because
a dangling `\r` is removed by the immediate `ln.trim()` before any
further use of the line. -/
def parseAssFile (text : List Char) : List SubtitleLine :=
  assLines false none (splitOnSep '\n' text)

-- Temporary trace checks (to be replaced by the claim theorems).
example : parseAssFile ("[Events]\nFormat: Layer, Start, End, Style, Name, MarginL, MarginR, MarginV, Effect, Text\nDialogue: 0,0:00:01.00,0:00:05.00,Default,Alice,0,0,0,,Hello, world").data =
    [⟨some 1, some 5, "Alice".data, "Hello, world".data⟩] := by decide

example : parseAssFile ("[Events]\nFormat: Layer, Start, End, Style, Name, MarginL, MarginR, MarginV, Effect, Text\nDialogue: 0,0:00:01.00,0:00:02.00,Default,Alice,0,0,0,,").data =
    [⟨some 1, some 2, "Alice".data, []⟩] := by decide

example : parseSrtFile ("1\n00:00:01,000 --> 00:00:02,000\n<i></i>").data =
    [⟨some 1, some 2, "Unknown".data, []⟩] := by decide

example : parseVttFile ("WEBVTT\n\n00:00:01.000 --> 00:00:03.000\n<v Jane>Hello there").data =
    [⟨some 1, some 3, "Unknown".data, "Hello there".data⟩] := by decide

example : extractSpeaker "<v Jane>Hello there".data =
    ("Jane".data, "Hello there".data) := by decide

example : parseTextFile ("Para one.\n\nPara two.").data =
    [⟨some 0, some 0, "Unknown".data, "Para one.".data⟩,
     ⟨some 0, some 0, "Unknown".data, "Para two.".data⟩] := by decide

example : secondsToHms (some (parseTime "0:00:01,5".data)) = "0:00:01.00".data := by
  decide

example : secondsToHms (some (parseTime "0:00:59.999".data)) = "0:00:60.00".data := by
  decide

example : secondsToHms (some (parseTime "0:00:60.00".data)) = "0:01:00.00".data := by
  decide

/-- The separator class `[-_:]` of `inferTimeFromFilename`. -/
def isSepChar (c : Char) : Bool := c = '-' || c = '_' || c = ':'

/-- Match of `(\d+)[-_:](\d+)[-_:](\d+)` anchored at the start of `t`.
Greedy `\d+` never backtracks usefully here: a shorter digit run would
leave a digit where the single separator character must match. -/
def matchTripleAt (t : List Char) : Option (ℕ × ℕ × ℕ) :=
  let d1 := takeDigits t
  if d1 = [] then none
  else
    match t.dropWhile isDigitChar with
    | c1 :: r1 =>
      if isSepChar c1 then
        let d2 := takeDigits r1
        if d2 = [] then none
        else
          match r1.dropWhile isDigitChar with
          | c2 :: r2 =>
            if isSepChar c2 then
              let d3 := takeDigits r2
              if d3 = [] then none
              else some (digitsToNat d1, digitsToNat d2, digitsToNat d3)
            else none
          | [] => none
      else none
    | [] => none

/-- Match of `(\d+)[-_:](\d+)` anchored at the start of `t`. -/
def matchPairAt (t : List Char) : Option (ℕ × ℕ) :=
  let d1 := takeDigits t
  if d1 = [] then none
  else
    match t.dropWhile isDigitChar with
    | c1 :: r1 =>
      if isSepChar c1 then
        let d2 := takeDigits r1
        if d2 = [] then none
        else some (digitsToNat d1, digitsToNat d2)
      else none
    | [] => none

/-- Leftmost match of the triple pattern (`String.prototype.match`
scans candidate start positions left to right). -/
def findTriple : List Char → Option (ℕ × ℕ × ℕ)
  | [] => none
  | c :: rest =>
    match matchTripleAt (c :: rest) with
    | some r => some r
    | none => findTriple rest

/-- Leftmost match of the pair pattern. -/
def findPair : List Char → Option (ℕ × ℕ)
  | [] => none
  | c :: rest =>
    match matchPairAt (c :: rest) with
    | some r => some r
    | none => findPair rest

/-- `inferTimeFromFilename` (src/services/parserService.ts:106-119):
an `H-M-S` triple wins, else an `M-S` pair, else `undefined` (`none`). -/
def inferTimeFromFilename (filename : List Char) : Option ℕ :=
  match findTriple filename with
  | some (h, m, s) => some (h * 3600 + m * 60 + s)
  | none =>
    match findPair filename with
    | some (m, s) => some (m * 60 + s)
    | none => none

example : inferTimeFromFilename "slide_00_10_05.png".data = some 605 := by decide
example : inferTimeFromFilename "noinfo.png".data = none := by decide
example : inferTimeFromFilename "10-05.png".data = some 605 := by decide

/-- Per-slide progress state (`SlideData.status` in src/types.ts). -/
inductive SlideStatus
  | pending
  | processing
  | done
  | error
deriving DecidableEq, Repr

/-- One slide record (`SlideData` in src/types.ts).  The `id`
(a fresh `Math.random()` token) and the opaque image file handle carry no
information used by any claim and are omitted from the embedding. -/
structure SlideData where
  filename : List Char
  startTime : Option ℕ
  status : SlideStatus
  analysis : Option (List Char)
deriving DecidableEq, Repr

/-- The record built for each uploaded file in `handleSlidesUpload`
(src/App.tsx:39-45): inferred start time, `status = pending`, no
analysis. -/
def mkSlide (f : List Char) : SlideData :=
  ⟨f, inferTimeFromFilename f, .pending, none⟩

/-- JS `<` on strings: code-unit lexicographic comparison (`Char.toNat`
is the code point, which equals the UTF-16 code unit for the basic-plane
filenames at issue). -/
def lexLt : List Char → List Char → Bool
  | [], [] => false
  | [], _ :: _ => true
  | _ :: _, [] => false
  | a :: as, b :: bs =>
    if a.toNat < b.toNat then true
    else if b.toNat < a.toNat then false
    else lexLt as bs

/-- "`a` may come before `b`" for the upload comparator
`(a, b) => a.filename > b.filename ? 1 : -1`: the comparator sends `a`
after `b` exactly when `a.filename > b.filename`.  (For equal filenames
the JS comparator is inconsistent and the engine's order is
implementation-defined; any placement of equal keys satisfies the
sortedness stated below.) -/
def slideBefore (a b : SlideData) : Prop := lexLt b.filename a.filename = false

instance : DecidableRel slideBefore := fun a b => by
  unfold slideBefore; infer_instance

/-- `handleSlidesUpload` (src/App.tsx:37-48): the new batch is sorted by
filename and appended to the existing slide sequence. -/
def handleSlidesUpload (prev : List SlideData) (files : List (List Char)) :
    List SlideData :=
  prev ++ List.insertionSort slideBefore (files.map mkSlide)

/-- `transcribeAudio` (src/unnamed/part_002:19-55): the external
response is `JSON.parse`d inside `try`/`catch`; a failed parse yields
`[]`, never an error.  The JSON decoding itself is abstracted as the
`Except`-valued argument. -/
def transcribeAudio (parsed : Except (List Char) (List SubtitleLine)) :
    List SubtitleLine :=
  match parsed with
  | .ok v => v
  | .error _ => []

/-- The transcript-source mode of src/App.tsx (`InputMode.ASS_FILE` /
`InputMode.AUDIO_FILE`). -/
inductive InputMode
  | assFile
  | audioFile
deriving DecidableEq, Repr

/-- The observable outcome of one `startProcessing` run: the terminal
step (`complete`, or back at `upload` after a caught error), the error
message if any, the slide records after the run, and whether the
alignment request (`generateFinalReport`) was issued. -/
structure RunResult where
  completed : Bool
  errorMsg : Option (List Char)
  slides : List SlideData
  alignmentRequested : Bool
deriving DecidableEq, Repr

/-- The per-slide body of the analysis batch (src/App.tsx:120-142):
a successful vision call stores the analysis and `status = done`; a
failure is caught per slide, storing the placeholder analysis and
`status = error`. -/
def analyzeSlide (oracle : SlideData → Except (List Char) (List Char))
    (s : SlideData) : SlideData :=
  match oracle s with
  | .ok a => { s with status := .done, analysis := some a }
  | .error _ => { s with status := .error, analysis := some "Error analyzing slide.".data }

/-- `for (let i = 0; i < n; i += 3)` chunking (src/App.tsx:117-119). -/
def chunksOf3 : List α → List (List α)
  | [] => []
  | [a] => [[a]]
  | [a, b] => [[a, b]]
  | a :: b :: c :: rest => [a, b, c] :: chunksOf3 rest

/-- The slide-analysis stage (src/App.tsx:116-143): batches of three,
all slides of a batch analysed concurrently (their updates touch
disjoint records, so the concurrent batch equals the map), each batch
awaited before the next. -/
def analyzeStage (oracle : SlideData → Except (List Char) (List Char))
    (slides : List SlideData) : List SlideData :=
  ((chunksOf3 slides).map (List.map (analyzeSlide oracle))).flatten

/-- `startProcessing` (src/App.tsx:62-157).  External effects are passed
as values: `acquire` is the outcome of the transcript acquisition
(format parse or transcription — whichever the mode selects), `oracle`
the per-slide vision call, `report` the alignment call (its parsed
result is opaque to the orchestrator).  A thrown JS error is an
`Except.error`; the surrounding `try`/`catch` turns it into an error
message with the run back at the upload step. -/
def startProcessing (hasApiKey : Bool) (mode : InputMode)
    (transcriptFilePresent audioFilePresent : Bool)
    (slides : List SlideData)
    (acquire : Except (List Char) (List SubtitleLine))
    (oracle : SlideData → Except (List Char) (List Char))
    (report : Except (List Char) α) : RunResult :=
  if !hasApiKey then
    ⟨false, some "Google Gemini API Key is not configured in environment variables.".data,
      slides, false⟩
  else if slides.isEmpty then
    ⟨false, some "Please upload at least one slide.".data, slides, false⟩
  else if mode = .assFile && !transcriptFilePresent then
    ⟨false, some "Please upload a .ass transcript file.".data, slides, false⟩
  else if mode = .audioFile && !audioFilePresent then
    ⟨false, some "Please upload an audio file.".data, slides, false⟩
  else
    match acquire with
    | .error e => ⟨false, some e, slides, false⟩
    | .ok transcriptLines =>
      if transcriptLines.isEmpty then
        -- src/App.tsx:104-106: `throw new Error("No transcript data found. ...")`
        ⟨false, some "No transcript data found. Check your input file.".data, slides, false⟩
      else
        let processed := analyzeStage oracle slides
        match report with
        | .error e => ⟨false, some e, processed, true⟩
        | .ok _ => ⟨true, none, processed, true⟩

/-- The `"start --> end | speaker | text"` transcript line rendering of
`generateFinalReport` (src/unnamed/part_002:84-86, identically
src/unnamed/part_001). -/
def fmtLineFlat (ln : SubtitleLine) : List Char :=
  secondsToHms (some ln.start) ++ " --> ".data ++ secondsToHms (some ln.stop) ++
    " | ".data ++ ln.speaker ++ " | ".data ++ ln.text

/-- `transcript.map(...).join('\n')` for the flat-schema builders. -/
def serializeTranscriptFlat (t : List SubtitleLine) : List Char :=
  joinWith "\n".data (t.map fmtLineFlat)

/-- The truncation marker appended by the flat-schema builders. -/
def truncMarker : List Char := "\n...[TRUNCATED]".data

/-- The transcript text sent by the part_002 flat-schema
`generateFinalReport` (lines 83-91): truncate at 50000 characters and
append the marker. -/
def buildTransText50k (t : List SubtitleLine) : List Char :=
  let s := serializeTranscriptFlat t
  if 50000 < s.length then s.take 50000 ++ truncMarker else s

/-- The transcript text sent by the part_001 flat-schema
`generateFinalReport`: same rendering, 80000-character budget. -/
def buildTransText80k (t : List SubtitleLine) : List Char :=
  let s := serializeTranscriptFlat t
  if 80000 < s.length then s.take 80000 ++ truncMarker else s

/-- The `"[start] speaker: text"` rendering of the timeline-schema
`generateFinalReport` (src/unnamed/part_002:235-237). -/
def fmtLineTimeline (ln : SubtitleLine) : List Char :=
  '[' :: (secondsToHms (some ln.start) ++ "] ".data ++ ln.speaker ++ ": ".data ++ ln.text)

/-- The transcript text sent by the timeline-schema
`generateFinalReport` (src/unnamed/part_002:235-242): the serialization
is passed through with no budget check of any kind. -/
def buildTransTextTimeline (t : List SubtitleLine) : List Char :=
  joinWith "\n".data (t.map fmtLineTimeline)

/-! ## Facts about digit strings, splitting and trimming
(the groundwork for the timestamp-codec round-trip claim) -/

/-- Digits are not JS whitespace. -/
theorem digit_not_ws {c : Char} (h : isDigitChar c = true) : isWsChar c = false := by
  cases hw : isWsChar c with
  | false => rfl
  | true =>
    exfalso
    unfold isWsChar at hw
    simp only [Bool.or_eq_true, decide_eq_true_eq] at hw
    rcases hw with ((((rfl | rfl) | rfl) | rfl) | rfl) | rfl <;>
      exact absurd h (by decide)

/-- A digit differs from any concrete non-digit character. -/
theorem digit_ne {c d : Char} (h : isDigitChar c = true)
    (hd : isDigitChar d = false) : c ≠ d := by
  rintro rfl
  rw [h] at hd
  cases hd

/-- `takeWhile` keeps an all-satisfying list. -/
theorem takeWhile_all {p : Char → Bool} :
    ∀ {xs : List Char}, (∀ c ∈ xs, p c = true) → xs.takeWhile p = xs
  | [], _ => rfl
  | x :: xs, h => by
    rw [List.takeWhile_cons, if_pos (h x (by simp))]
    rw [takeWhile_all fun c hc => h c (by simp [hc])]

/-- `takeWhile` over an all-satisfying prefix followed by a failing
character. -/
theorem takeWhile_append_not {p : Char → Bool} {y : Char} {ys : List Char}
    (hy : p y = false) :
    ∀ {xs : List Char}, (∀ c ∈ xs, p c = true) →
      (xs ++ y :: ys).takeWhile p = xs
  | [], _ => by simp [List.takeWhile_cons, hy]
  | x :: xs, h => by
    rw [List.cons_append, List.takeWhile_cons, if_pos (h x (by simp))]
    rw [takeWhile_append_not hy fun c hc => h c (by simp [hc])]

/-- `dropWhile` over an all-satisfying prefix followed by a failing
character. -/
theorem dropWhile_append_not {p : Char → Bool} {y : Char} {ys : List Char}
    (hy : p y = false) :
    ∀ {xs : List Char}, (∀ c ∈ xs, p c = true) →
      (xs ++ y :: ys).dropWhile p = y :: ys
  | [], _ => by simp [List.dropWhile_cons, hy]
  | x :: xs, h => by
    rw [List.cons_append, List.dropWhile_cons, if_pos (h x (by simp))]
    exact dropWhile_append_not hy fun c hc => h c (by simp [hc])

/-- `dropWhile` keeps a list with no satisfying prefix at all. -/
theorem dropWhile_all_not {p : Char → Bool} :
    ∀ {xs : List Char}, (∀ c ∈ xs, p c = false) → xs.dropWhile p = xs
  | [], _ => rfl
  | x :: xs, h => by
    rw [List.dropWhile_cons, if_neg (by rw [h x (by simp)]; simp)]

/-- `trim` of a string with no whitespace at all. -/
theorem trimChars_eq_self {l : List Char}
    (h : ∀ x ∈ l, isWsChar x = false) : trimChars l = l := by
  unfold trimChars
  rw [dropWhile_all_not h,
    dropWhile_all_not fun x hx => h x (List.mem_reverse.mp hx),
    List.reverse_reverse]

/-- `trimStart` of a string with no whitespace at all. -/
theorem trimLeft_eq_self {l : List Char}
    (h : ∀ x ∈ l, isWsChar x = false) : trimLeftChars l = l :=
  dropWhile_all_not h

/-- The split never produces the empty part list. -/
theorem splitOnSep_ne_nil (c : Char) : ∀ (l : List Char), splitOnSep c l ≠ []
  | [] => by simp [splitOnSep]
  | x :: xs => by
    unfold splitOnSep
    split
    · simp
    · split
      · simp
      · simp

/-- A separator-free list splits into itself. -/
theorem splitOnSep_not_mem {c : Char} :
    ∀ {xs : List Char}, (∀ x ∈ xs, x ≠ c) → splitOnSep c xs = [xs]
  | [], _ => rfl
  | x :: xs, h => by
    conv_lhs => unfold splitOnSep
    rw [if_neg (h x (by simp))]
    rw [splitOnSep_not_mem fun y hy => h y (by simp [hy])]

/-- Splitting at the first separator after a separator-free prefix. -/
theorem splitOnSep_append {c : Char} {ys : List Char} :
    ∀ {xs : List Char}, (∀ x ∈ xs, x ≠ c) →
      splitOnSep c (xs ++ c :: ys) = xs :: splitOnSep c ys
  | [], _ => by
    rw [List.nil_append]
    conv_lhs => unfold splitOnSep
    rw [if_pos rfl]
  | x :: xs, h => by
    rw [List.cons_append]
    conv_lhs => unfold splitOnSep
    rw [if_neg (h x (by simp))]
    rw [splitOnSep_append fun y hy => h y (by simp [hy])]

/-- A leading `'0'` does not change the numeric value. -/
theorem digitsToNat_cons_zero (xs : List Char) :
    digitsToNat ('0' :: xs) = digitsToNat xs := rfl

/-- Leading zero padding does not change the numeric value. -/
theorem digitsToNat_replicate_zero (k : ℕ) (ds : List Char) :
    digitsToNat (List.replicate k '0' ++ ds) = digitsToNat ds := by
  induction k with
  | zero => rfl
  | succ n ih => rw [List.replicate_succ, List.cons_append, digitsToNat_cons_zero, ih]

/-- Appending one digit multiplies by ten and adds its value. -/
theorem digitsToNat_concat (xs : List Char) (c : Char) :
    digitsToNat (xs ++ [c]) = 10 * digitsToNat xs + digitVal c := by
  unfold digitsToNat
  rw [List.foldl_append]
  rfl

/-- The decimal rendering is non-empty, consists of digits, and parses
back to its input. -/
theorem renderNatAux_spec : ∀ (fuel n : ℕ), n < fuel →
    renderNatAux fuel n ≠ [] ∧ (∀ c ∈ renderNatAux fuel n, isDigitChar c = true) ∧
      digitsToNat (renderNatAux fuel n) = n
  | 0, n, h => absurd h (by omega)
  | fuel + 1, n, h => by
    have hdig : ∀ k, k < 10 → isDigitChar (Char.ofNat ('0'.toNat + k)) = true := by
      decide
    have hval : ∀ k, k < 10 → digitVal (Char.ofNat ('0'.toNat + k)) = k := by
      decide
    by_cases h10 : n < 10
    · have hr : renderNatAux (fuel + 1) n = [Char.ofNat ('0'.toNat + n)] := by
        unfold renderNatAux
        rw [if_pos h10]
      refine ⟨by simp [hr], ?_, ?_⟩
      · intro c hc
        rw [hr] at hc
        simp only [List.mem_singleton] at hc
        subst hc
        exact hdig n h10
      · rw [hr]
        show 10 * 0 + digitVal (Char.ofNat ('0'.toNat + n)) = n
        rw [hval n h10]
        omega
    · have hr : renderNatAux (fuel + 1) n =
          renderNatAux fuel (n / 10) ++ [Char.ofNat ('0'.toNat + n % 10)] := by
        conv_lhs => unfold renderNatAux
        rw [if_neg h10]
      have hlt : n / 10 < fuel := by
        have := Nat.div_lt_self (show 0 < n by omega) (show 1 < 10 by omega)
        omega
      obtain ⟨ih1, ih2, ih3⟩ := renderNatAux_spec fuel (n / 10) hlt
      have hm : n % 10 < 10 := Nat.mod_lt _ (by omega)
      refine ⟨by simp [hr], ?_, ?_⟩
      · intro c hc
        rw [hr] at hc
        rcases List.mem_append.mp hc with hc | hc
        · exact ih2 c hc
        · simp only [List.mem_singleton] at hc
          subst hc
          exact hdig _ hm
      · rw [hr, digitsToNat_concat, ih3, hval _ hm]
        omega

/-- `renderNat` is non-empty, all digits, and parses back. -/
theorem renderNat_spec (n : ℕ) :
    renderNat n ≠ [] ∧ (∀ c ∈ renderNat n, isDigitChar c = true) ∧
      digitsToNat (renderNat n) = n :=
  renderNatAux_spec (n + 1) n (Nat.lt_succ_self n)

/-- A one-digit number renders as one character. -/
theorem renderNatAux_single (fuel n : ℕ) (h : n < 10) (hf : fuel ≠ 0) :
    renderNatAux fuel n = [Char.ofNat ('0'.toNat + n)] := by
  cases fuel with
  | zero => exact absurd rfl hf
  | succ f =>
    conv_lhs => unfold renderNatAux
    rw [if_pos h]

/-- `jsParseInt` on a non-empty all-digit string is its value. -/
theorem jsParseInt_digits {ds : List Char} (h1 : ds ≠ [])
    (h2 : ∀ c ∈ ds, isDigitChar c = true) :
    jsParseInt ds = some (digitsToNat ds : ℤ) := by
  obtain ⟨d, rest, rfl⟩ := List.exists_cons_of_ne_nil h1
  have hd : isDigitChar d = true := h2 d (by simp)
  have htrim : trimLeftChars (d :: rest) = d :: rest :=
    trimLeft_eq_self fun x hx => digit_not_ws (h2 x hx)
  have htake : (d :: rest).takeWhile isDigitChar = d :: rest := takeWhile_all h2
  unfold jsParseInt
  dsimp only
  rw [htrim]
  split
  · next heq =>
    exact absurd (congrArg (fun l => l.head?) heq)
      (by simp; exact digit_ne hd (by decide))
  · next heq =>
    exact absurd (congrArg (fun l => l.head?) heq)
      (by simp; exact digit_ne hd (by decide))
  · rw [show takeDigits (d :: rest) = d :: rest from htake]
    rw [if_neg (by simp)]

/-- `jsParseFloat` on `digits.digits`. -/
theorem jsParseFloat_digits_frac {ds fs : List Char} (h1 : ds ≠ [])
    (h2 : ∀ c ∈ ds, isDigitChar c = true)
    (h3 : ∀ c ∈ fs, isDigitChar c = true) :
    jsParseFloat (ds ++ '.' :: fs) =
      some (mkRat (digitsToNat ds * 10 ^ fs.length + digitsToNat fs)
        (10 ^ fs.length)) := by
  obtain ⟨d, rest, rfl⟩ := List.exists_cons_of_ne_nil h1
  have hd : isDigitChar d = true := h2 d (by simp)
  have hnw : ∀ x ∈ (d :: rest) ++ '.' :: fs, isWsChar x = false := by
    intro x hx
    rcases List.mem_append.mp hx with hx | hx
    · exact digit_not_ws (h2 x hx)
    · rcases List.mem_cons.mp hx with rfl | hx
      · rfl
      · exact digit_not_ws (h3 x hx)
  have hbody : jsParseFloatBody ((d :: rest) ++ '.' :: fs) =
      some ((digitsToNat (d :: rest) : ℤ) * 10 ^ fs.length +
        (digitsToNat fs : ℤ), 10 ^ fs.length) := by
    unfold jsParseFloatBody
    rw [show ((d :: rest) ++ '.' :: fs).dropWhile isDigitChar = '.' :: fs from
      dropWhile_append_not (by decide) h2]
    rw [show takeDigits ((d :: rest) ++ '.' :: fs) = d :: rest from
      takeWhile_append_not (by decide) h2]
    split
    · next rest1 heq =>
      injection heq with _ hfs
      subst hfs
      rw [show takeDigits fs = fs from takeWhile_all h3]
      rw [if_neg (by simp)]
    · next hne => exact absurd rfl (hne fs)
  unfold jsParseFloat
  rw [trimLeft_eq_self hnw]
  unfold jsParseFloatParts
  split
  · next heq =>
    exact absurd (congrArg (fun l => l.head?) heq)
      (by simp; exact digit_ne hd (by decide))
  · next heq =>
    exact absurd (congrArg (fun l => l.head?) heq)
      (by simp; exact digit_ne hd (by decide))
  · rw [hbody]
    rfl

/-- `jsParseFloat` on a plain digit string. -/
theorem jsParseFloat_digits {ds : List Char} (h1 : ds ≠ [])
    (h2 : ∀ c ∈ ds, isDigitChar c = true) :
    jsParseFloat ds = some (mkRat (digitsToNat ds) 1) := by
  obtain ⟨d, rest, rfl⟩ := List.exists_cons_of_ne_nil h1
  have hd : isDigitChar d = true := h2 d (by simp)
  have hbody : jsParseFloatBody (d :: rest) =
      some ((digitsToNat (d :: rest) : ℤ), 1) := by
    unfold jsParseFloatBody
    rw [show (d :: rest).dropWhile isDigitChar = [] from by
      rw [List.dropWhile_eq_nil_iff]
      intro x hx
      exact h2 x hx]
    dsimp only
    rw [show takeDigits (d :: rest) = d :: rest from takeWhile_all h2]
    rw [if_neg (by simp)]
  unfold jsParseFloat
  rw [trimLeft_eq_self fun x hx => digit_not_ws (h2 x hx)]
  unfold jsParseFloatParts
  split
  · next heq =>
    exact absurd (congrArg (fun l => l.head?) heq)
      (by simp; exact digit_ne hd (by decide))
  · next heq =>
    exact absurd (congrArg (fun l => l.head?) heq)
      (by simp; exact digit_ne hd (by decide))
  · rw [hbody]
    rfl

/-- Fractional value of a digit string read after a decimal point. -/
def fracVal (ds : List Char) : ℚ :=
  (digitsToNat ds : ℚ) / ((10 : ℚ) ^ ds.length)

/-- The value of an optional fraction-digit group. -/
def fracValOpt : Option (List Char) → ℚ
  | some f => fracVal f
  | none => 0

/-- The seconds token `SS` or `SS.fff` of a timecode string. -/
def secToken (sd : List Char) (fd : Option (List Char)) : List Char :=
  sd ++ (match fd with | some f => '.' :: f | none => [])

/-- A syntactically valid `H:MM:SS(.fff)` string, assembled from its
digit groups. -/
def timecodeStr3 (hd md sd : List Char) (fd : Option (List Char)) : List Char :=
  hd ++ ':' :: (md ++ ':' :: secToken sd fd)

/-- A syntactically valid `MM:SS(.fff)` string. -/
def timecodeStr2 (md sd : List Char) (fd : Option (List Char)) : List Char :=
  md ++ ':' :: secToken sd fd

/-- The rational value of the seconds token, in `mkRat` form. -/
def secValQ (sd : List Char) (fd : Option (List Char)) : ℚ :=
  match fd with
  | some f => mkRat (digitsToNat sd * 10 ^ f.length + digitsToNat f) (10 ^ f.length)
  | none => mkRat (digitsToNat sd) 1

/-- The seconds value is the integer part plus the fraction. -/
theorem secValQ_eq (sd : List Char) (fd : Option (List Char)) :
    secValQ sd fd = (digitsToNat sd : ℚ) + fracValOpt fd := by
  cases fd with
  | none =>
    show mkRat (digitsToNat sd) 1 = _
    rw [Rat.mkRat_one]
    simp [fracValOpt]
  | some f =>
    show mkRat (digitsToNat sd * 10 ^ f.length + digitsToNat f) (10 ^ f.length) = _
    have hp : ((10 : ℚ) ^ f.length) ≠ 0 := by positivity
    rw [mkRat_cast_eq_div]
    simp only [fracValOpt, fracVal]
    push_cast
    field_simp

/-- The seconds value is nonnegative. -/
theorem secValQ_nonneg (sd : List Char) (fd : Option (List Char)) :
    0 ≤ secValQ sd fd := by
  rw [secValQ_eq]
  have h2 : 0 ≤ fracValOpt fd := by
    cases fd with
    | none => simp [fracValOpt]
    | some f =>
      simp only [fracValOpt, fracVal]
      positivity
  positivity

/-- Characters of the seconds token are digits or the decimal dot. -/
theorem secToken_mem {sd : List Char} {fd : Option (List Char)}
    (hsd : ∀ c ∈ sd, isDigitChar c = true)
    (hfd : ∀ f, fd = some f → ∀ c ∈ f, isDigitChar c = true) :
    ∀ x ∈ secToken sd fd, isDigitChar x = true ∨ x = '.' := by
  intro x hx
  unfold secToken at hx
  rcases List.mem_append.mp hx with hx | hx
  · exact Or.inl (hsd x hx)
  · cases fd with
    | none => simp at hx
    | some f =>
      rcases List.mem_cons.mp hx with rfl | hx
      · exact Or.inr rfl
      · exact Or.inl (hfd f rfl x hx)

/-- `parseFloat` of the seconds token. -/
theorem jsParseFloat_secToken {sd : List Char} {fd : Option (List Char)}
    (h1 : sd ≠ []) (hsd : ∀ c ∈ sd, isDigitChar c = true)
    (hfd : ∀ f, fd = some f → ∀ c ∈ f, isDigitChar c = true) :
    jsParseFloat (secToken sd fd) = some (secValQ sd fd) := by
  cases fd with
  | none =>
    show jsParseFloat (sd ++ []) = _
    rw [List.append_nil]
    exact jsParseFloat_digits h1 hsd
  | some f =>
    show jsParseFloat (sd ++ '.' :: f) = _
    exact jsParseFloat_digits_frac h1 hsd (hfd f rfl)

/-- Decoding a valid `H:MM:SS(.fff)` string: the literal source formula
on the digit-group values. -/
theorem parseTime_timecode3 {hd md sd : List Char} {fd : Option (List Char)}
    (hh1 : hd ≠ []) (hh2 : ∀ c ∈ hd, isDigitChar c = true)
    (hm1 : md ≠ []) (hm2 : ∀ c ∈ md, isDigitChar c = true)
    (hs1 : sd ≠ []) (hs2 : ∀ c ∈ sd, isDigitChar c = true)
    (hfd : ∀ f, fd = some f → ∀ c ∈ f, isDigitChar c = true) :
    parseTime (timecodeStr3 hd md sd fd) =
      some ((digitsToNat hd : ℚ) * 3600 + (digitsToNat md : ℚ) * 60 +
        secValQ sd fd) := by
  have hsec := secToken_mem hs2 hfd
  have hnw : ∀ x ∈ timecodeStr3 hd md sd fd, isWsChar x = false := by
    intro x hx
    unfold timecodeStr3 at hx
    rcases List.mem_append.mp hx with hx | hx
    · exact digit_not_ws (hh2 x hx)
    · rcases List.mem_cons.mp hx with rfl | hx
      · rfl
      · rcases List.mem_append.mp hx with hx | hx
        · exact digit_not_ws (hm2 x hx)
        · rcases List.mem_cons.mp hx with rfl | hx
          · rfl
          · rcases hsec x hx with h | rfl
            · exact digit_not_ws h
            · rfl
  have hsplit : splitOnSep ':' (trimChars (timecodeStr3 hd md sd fd)) =
      [hd, md, secToken sd fd] := by
    rw [trimChars_eq_self hnw]
    unfold timecodeStr3
    rw [splitOnSep_append fun x hx => digit_ne (hh2 x hx) (by decide)]
    rw [splitOnSep_append fun x hx => digit_ne (hm2 x hx) (by decide)]
    rw [splitOnSep_not_mem fun x hx => by
      rcases hsec x hx with h | rfl
      · exact digit_ne h (by decide)
      · decide]
  have := parseTime_formula3 hsplit (jsParseInt_digits hh1 hh2)
    (jsParseInt_digits hm1 hm2) (jsParseFloat_secToken hs1 hs2 hfd)
  rw [this]
  push_cast
  ring_nf

/-- Decoding a valid `MM:SS(.fff)` string. -/
theorem parseTime_timecode2 {md sd : List Char} {fd : Option (List Char)}
    (hm1 : md ≠ []) (hm2 : ∀ c ∈ md, isDigitChar c = true)
    (hs1 : sd ≠ []) (hs2 : ∀ c ∈ sd, isDigitChar c = true)
    (hfd : ∀ f, fd = some f → ∀ c ∈ f, isDigitChar c = true) :
    parseTime (timecodeStr2 md sd fd) =
      some ((digitsToNat md : ℚ) * 60 + secValQ sd fd) := by
  have hsec := secToken_mem hs2 hfd
  have hnw : ∀ x ∈ timecodeStr2 md sd fd, isWsChar x = false := by
    intro x hx
    unfold timecodeStr2 at hx
    rcases List.mem_append.mp hx with hx | hx
    · exact digit_not_ws (hm2 x hx)
    · rcases List.mem_cons.mp hx with rfl | hx
      · rfl
      · rcases hsec x hx with h | rfl
        · exact digit_not_ws h
        · rfl
  have hsplit : splitOnSep ':' (trimChars (timecodeStr2 md sd fd)) =
      [md, secToken sd fd] := by
    rw [trimChars_eq_self hnw]
    unfold timecodeStr2
    rw [splitOnSep_append fun x hx => digit_ne (hm2 x hx) (by decide)]
    rw [splitOnSep_not_mem fun x hx => by
      rcases hsec x hx with h | rfl
      · exact digit_ne h (by decide)
      · decide]
  have := parseTime_formula2 hsplit (jsParseInt_digits hm1 hm2)
    (jsParseFloat_secToken hs1 hs2 hfd)
  rw [this]
  push_cast
  ring_nf

/-- `parseFloat` stops at a comma: on `digits,digits` the fractional
part after the comma is silently dropped.  No comma→dot normalization
exists anywhere in the source — `parseSrtFile` passes raw comma
timestamps straight to `parseTime`. -/
theorem jsParseFloat_digits_comma {ds fs : List Char} (h1 : ds ≠ [])
    (h2 : ∀ c ∈ ds, isDigitChar c = true)
    (h3 : ∀ c ∈ fs, isDigitChar c = true) :
    jsParseFloat (ds ++ ',' :: fs) = some (mkRat (digitsToNat ds) 1) := by
  obtain ⟨d, rest, rfl⟩ := List.exists_cons_of_ne_nil h1
  have hd : isDigitChar d = true := h2 d (by simp)
  have hnw : ∀ x ∈ (d :: rest) ++ ',' :: fs, isWsChar x = false := by
    intro x hx
    rcases List.mem_append.mp hx with hx | hx
    · exact digit_not_ws (h2 x hx)
    · rcases List.mem_cons.mp hx with rfl | hx
      · rfl
      · exact digit_not_ws (h3 x hx)
  have hbody : jsParseFloatBody ((d :: rest) ++ ',' :: fs) =
      some ((digitsToNat (d :: rest) : ℤ), 1) := by
    unfold jsParseFloatBody
    rw [show ((d :: rest) ++ ',' :: fs).dropWhile isDigitChar = ',' :: fs from
      dropWhile_append_not (by decide) h2]
    rw [show takeDigits ((d :: rest) ++ ',' :: fs) = d :: rest from
      takeWhile_append_not (by decide) h2]
    split
    · next rest1 heq =>
      injection heq with hc _
      exact absurd hc (by decide)
    · rw [if_neg (by simp)]
  unfold jsParseFloat
  rw [trimLeft_eq_self hnw]
  unfold jsParseFloatParts
  split
  · next heq =>
    exact absurd (congrArg (fun l => l.head?) heq)
      (by simp; exact digit_ne hd (by decide))
  · next heq =>
    exact absurd (congrArg (fun l => l.head?) heq)
      (by simp; exact digit_ne hd (by decide))
  · rw [hbody]
    rfl

/-- A timecode string of shape `H:MM:SS,fff` with the SRT comma
separator, assembled from its digit groups. -/
def timecodeStr3Comma (hd md sd fd : List Char) : List Char :=
  hd ++ ':' :: (md ++ ':' :: (sd ++ ',' :: fd))

/-- A timecode string of shape `MM:SS,fff` with the SRT comma
separator. -/
def timecodeStr2Comma (md sd fd : List Char) : List Char :=
  md ++ ':' :: (sd ++ ',' :: fd)

/-- Decoding a comma-separated `H:MM:SS,fff` string drops the
fractional digits entirely: the result does not depend on `fd`. -/
theorem parseTime_timecode3_comma {hd md sd fd : List Char}
    (hh1 : hd ≠ []) (hh2 : ∀ c ∈ hd, isDigitChar c = true)
    (hm1 : md ≠ []) (hm2 : ∀ c ∈ md, isDigitChar c = true)
    (hs1 : sd ≠ []) (hs2 : ∀ c ∈ sd, isDigitChar c = true)
    (hf : ∀ c ∈ fd, isDigitChar c = true) :
    parseTime (timecodeStr3Comma hd md sd fd) =
      some ((digitsToNat hd : ℚ) * 3600 + (digitsToNat md : ℚ) * 60 +
        (digitsToNat sd : ℚ)) := by
  have hsec : ∀ x ∈ sd ++ ',' :: fd, isDigitChar x = true ∨ x = ',' := by
    intro x hx
    rcases List.mem_append.mp hx with hx | hx
    · exact Or.inl (hs2 x hx)
    · rcases List.mem_cons.mp hx with rfl | hx
      · exact Or.inr rfl
      · exact Or.inl (hf x hx)
  have hnw : ∀ x ∈ timecodeStr3Comma hd md sd fd, isWsChar x = false := by
    intro x hx
    unfold timecodeStr3Comma at hx
    rcases List.mem_append.mp hx with hx | hx
    · exact digit_not_ws (hh2 x hx)
    · rcases List.mem_cons.mp hx with rfl | hx
      · rfl
      · rcases List.mem_append.mp hx with hx | hx
        · exact digit_not_ws (hm2 x hx)
        · rcases List.mem_cons.mp hx with rfl | hx
          · rfl
          · rcases hsec x hx with h | rfl
            · exact digit_not_ws h
            · rfl
  have hsplit : splitOnSep ':' (trimChars (timecodeStr3Comma hd md sd fd)) =
      [hd, md, sd ++ ',' :: fd] := by
    rw [trimChars_eq_self hnw]
    unfold timecodeStr3Comma
    rw [splitOnSep_append fun x hx => digit_ne (hh2 x hx) (by decide)]
    rw [splitOnSep_append fun x hx => digit_ne (hm2 x hx) (by decide)]
    rw [splitOnSep_not_mem fun x hx => by
      rcases hsec x hx with h | rfl
      · exact digit_ne h (by decide)
      · decide]
  have := parseTime_formula3 hsplit (jsParseInt_digits hh1 hh2)
    (jsParseInt_digits hm1 hm2) (jsParseFloat_digits_comma hs1 hs2 hf)
  rw [this, Rat.mkRat_one]
  push_cast
  ring_nf

/-- Decoding a comma-separated `MM:SS,fff` string drops the fractional
digits entirely. -/
theorem parseTime_timecode2_comma {md sd fd : List Char}
    (hm1 : md ≠ []) (hm2 : ∀ c ∈ md, isDigitChar c = true)
    (hs1 : sd ≠ []) (hs2 : ∀ c ∈ sd, isDigitChar c = true)
    (hf : ∀ c ∈ fd, isDigitChar c = true) :
    parseTime (timecodeStr2Comma md sd fd) =
      some ((digitsToNat md : ℚ) * 60 + (digitsToNat sd : ℚ)) := by
  have hsec : ∀ x ∈ sd ++ ',' :: fd, isDigitChar x = true ∨ x = ',' := by
    intro x hx
    rcases List.mem_append.mp hx with hx | hx
    · exact Or.inl (hs2 x hx)
    · rcases List.mem_cons.mp hx with rfl | hx
      · exact Or.inr rfl
      · exact Or.inl (hf x hx)
  have hnw : ∀ x ∈ timecodeStr2Comma md sd fd, isWsChar x = false := by
    intro x hx
    unfold timecodeStr2Comma at hx
    rcases List.mem_append.mp hx with hx | hx
    · exact digit_not_ws (hm2 x hx)
    · rcases List.mem_cons.mp hx with rfl | hx
      · rfl
      · rcases hsec x hx with h | rfl
        · exact digit_not_ws h
        · rfl
  have hsplit : splitOnSep ':' (trimChars (timecodeStr2Comma md sd fd)) =
      [md, sd ++ ',' :: fd] := by
    rw [trimChars_eq_self hnw]
    unfold timecodeStr2Comma
    rw [splitOnSep_append fun x hx => digit_ne (hm2 x hx) (by decide)]
    rw [splitOnSep_not_mem fun x hx => by
      rcases hsec x hx with h | rfl
      · exact digit_ne h (by decide)
      · decide]
  have := parseTime_formula2 hsplit (jsParseInt_digits hm1 hm2)
    (jsParseFloat_digits_comma hs1 hs2 hf)
  rw [this, Rat.mkRat_one]
  push_cast
  ring_nf

/-- JS truncation agrees with the floor on nonnegative input. -/
theorem ratTrunc_of_nonneg {q : ℚ} (h : 0 ≤ q) : ratTrunc q = ⌊q⌋ := by
  unfold ratTrunc
  rw [if_pos h]

/-- `a % b` is nonnegative for nonnegative `a`. -/
theorem jsModNat_nonneg {v : ℚ} (k : ℕ) (hv : 0 ≤ v) : 0 ≤ jsModNat v k := by
  rw [jsModNat_spec]
  rcases Nat.eq_zero_or_pos k with hk | hk
  · subst hk
    simpa using hv
  · have hkq : (0 : ℚ) < (k : ℚ) := by exact_mod_cast hk
    rw [ratTrunc_of_nonneg (by positivity)]
    have hle : (⌊v / (k : ℚ)⌋ : ℚ) ≤ v / (k : ℚ) := Int.floor_le _
    have hmul : (k : ℚ) * (⌊v / (k : ℚ)⌋ : ℚ) ≤ (k : ℚ) * (v / (k : ℚ)) :=
      mul_le_mul_of_nonneg_left hle (le_of_lt hkq)
    rw [mul_div_cancel₀ v hkq.ne'] at hmul
    linarith

/-- `a % b < b` for nonnegative `a` and positive `b`. -/
theorem jsModNat_lt {v : ℚ} {k : ℕ} (hv : 0 ≤ v) (hk : 0 < k) :
    jsModNat v k < (k : ℚ) := by
  rw [jsModNat_spec]
  have hkq : (0 : ℚ) < (k : ℚ) := by exact_mod_cast hk
  rw [ratTrunc_of_nonneg (by positivity)]
  have hlt : v / (k : ℚ) < (⌊v / (k : ℚ)⌋ : ℚ) + 1 := Int.lt_floor_add_one _
  have hmul : (k : ℚ) * (v / (k : ℚ)) < (k : ℚ) * ((⌊v / (k : ℚ)⌋ : ℚ) + 1) :=
    (mul_lt_mul_left hkq).mpr hlt
  rw [mul_div_cancel₀ v hkq.ne'] at hmul
  linarith

/-- `a % b = a - b⌊a/b⌋` for nonnegative `a`. -/
theorem jsModNat_floor_form {v : ℚ} (k : ℕ) (hv : 0 ≤ v) :
    jsModNat v k = v - (k : ℚ) * (⌊v / (k : ℚ)⌋ : ℚ) := by
  rw [jsModNat_spec]
  rcases Nat.eq_zero_or_pos k with hk | hk
  · subst hk
    simp
  · have hkq : (0 : ℚ) < (k : ℚ) := by exact_mod_cast hk
    rw [ratTrunc_of_nonneg (by positivity)]

/-- Rounding is nonnegative on nonnegative input. -/
theorem roundHalfUp_nonneg {q : ℚ} (h : 0 ≤ q) : 0 ≤ roundHalfUp q := by
  rw [roundHalfUp_spec]
  exact Int.floor_nonneg.mpr (by positivity)

/-- Rounding shifts by integers. -/
theorem roundHalfUp_int_add (z : ℤ) (x : ℚ) :
    roundHalfUp ((z : ℚ) + x) = 100 * z + roundHalfUp x := by
  rw [roundHalfUp_spec, roundHalfUp_spec]
  rw [show ((z : ℚ) + x) * 100 + 1 / 2 = ((100 * z : ℤ) : ℚ) + (x * 100 + 1 / 2) by
    push_cast; ring]
  rw [Int.floor_int_add]

/-- Rounding recovers a hundredth-valued rational exactly. -/
theorem roundHalfUp_mkRat100 (n : ℤ) : roundHalfUp (mkRat n 100) = n := by
  rw [roundHalfUp_spec, mkRat_cast_eq_div]
  rw [show (n : ℚ) / ((100 : ℕ) : ℚ) * 100 + 1 / 2 = (n : ℚ) + 1 / 2 by
    push_cast; ring]
  rw [show ((n : ℚ) + 1 / 2) = ((n : ℤ) : ℚ) + (1 / 2 : ℚ) by norm_num]
  rw [Int.floor_int_add]
  norm_num

/-- Floor of `(a·k + x)/k` is `a` when `0 ≤ x < k`. -/
theorem floor_div_of_bounded (a : ℤ) (x : ℚ) (k : ℕ) (hk : 0 < k)
    (hx0 : 0 ≤ x) (hxk : x < (k : ℚ)) :
    ⌊(((a * k : ℤ) : ℚ) + x) / (k : ℚ)⌋ = a := by
  have hkq : (0 : ℚ) < (k : ℚ) := by exact_mod_cast hk
  have : (((a * k : ℤ) : ℚ) + x) / (k : ℚ) = (a : ℚ) + x / (k : ℚ) := by
    push_cast
    field_simp
  rw [this, show ((a : ℚ) + x / (k : ℚ)) = ((a : ℤ) : ℚ) + x / (k : ℚ) by norm_num,
    Int.floor_int_add]
  have h0 : ⌊x / (k : ℚ)⌋ = 0 := by
    rw [Int.floor_eq_zero_iff]
    constructor
    · positivity
    · rw [div_lt_one hkq]
      exact hxk
  rw [h0]
  ring

/-- The hour/minute/second decomposition computed by `secondsToHms` is a
true decomposition of a nonnegative value: the components reassemble to
`v` and satisfy the expected bounds. -/
theorem hms_decomp (v : ℚ) (hv : 0 ≤ v) :
    v = 3600 * (⌊qdivNat v 3600⌋ : ℚ) +
        60 * (⌊qdivNat (jsModNat v 3600) 60⌋ : ℚ) + jsModNat v 60 ∧
      0 ≤ ⌊qdivNat v 3600⌋ ∧
      0 ≤ ⌊qdivNat (jsModNat v 3600) 60⌋ ∧
      ⌊qdivNat (jsModNat v 3600) 60⌋ < 60 ∧
      0 ≤ jsModNat v 60 ∧ jsModNat v 60 < 60 := by
  have h36 : (0 : ℚ) < 3600 := by norm_num
  have h60 : (0 : ℚ) < 60 := by norm_num
  set H : ℤ := ⌊qdivNat v 3600⌋ with hH
  have hHval : H = ⌊v / (3600 : ℚ)⌋ := by
    rw [hH, qdivNat_spec]
    norm_num
  set r : ℚ := jsModNat v 3600 with hr
  have hrval : r = v - 3600 * (H : ℚ) := by
    rw [hr, jsModNat_floor_form 3600 hv, hHval]
    norm_num
  have hr0 : 0 ≤ r := jsModNat_nonneg 3600 hv
  have hr36 : r < 3600 := by
    have := jsModNat_lt hv (show 0 < 3600 by norm_num)
    simpa using this
  set M : ℤ := ⌊qdivNat r 60⌋ with hM
  have hMval : M = ⌊r / (60 : ℚ)⌋ := by
    rw [hM, qdivNat_spec]
    norm_num
  have hM0 : 0 ≤ M := by
    rw [hMval]
    exact Int.floor_nonneg.mpr (by positivity)
  have hM60 : M < 60 := by
    rw [hMval]
    rw [Int.floor_lt]
    push_cast
    rw [div_lt_iff₀ h60]
    linarith
  set s : ℚ := jsModNat v 60 with hs
  have hsval : s = v - 60 * (⌊v / (60 : ℚ)⌋ : ℚ) := by
    rw [hs, jsModNat_floor_form 60 hv]
    norm_num
  have hs0 : 0 ≤ s := jsModNat_nonneg 60 hv
  have hs60 : s < 60 := by
    have := jsModNat_lt hv (show 0 < 60 by norm_num)
    simpa using this
  have hH0 : 0 ≤ H := by
    rw [hHval]
    exact Int.floor_nonneg.mpr (by positivity)
  -- ⌊v/60⌋ = 60·H + ⌊r/60⌋, since v = 3600·H + r
  have hkey : ⌊v / (60 : ℚ)⌋ = 60 * H + M := by
    have hv60 : v / (60 : ℚ) = ((60 * H : ℤ) : ℚ) + r / 60 := by
      rw [hrval]
      push_cast
      field_simp
      ring
    rw [hv60, Int.floor_int_add, hMval]
  have hids : s = r - 60 * (M : ℚ) := by
    rw [hsval, hkey, hrval]
    push_cast
    ring
  refine ⟨?_, hH0, hM0, hM60, hs0, hs60⟩
  rw [hids, hrval]
  ring

/-- `roundHalfUp` along the hour/minute/second decomposition. -/
theorem roundHalfUp_decomp (v : ℚ) (hv : 0 ≤ v) :
    roundHalfUp v =
      360000 * ⌊qdivNat v 3600⌋ + 6000 * ⌊qdivNat (jsModNat v 3600) 60⌋ +
        roundHalfUp (jsModNat v 60) := by
  obtain ⟨hid, _, _, _, _, _⟩ := hms_decomp v hv
  set H : ℤ := ⌊qdivNat v 3600⌋
  set M : ℤ := ⌊qdivNat (jsModNat v 3600) 60⌋
  set s : ℚ := jsModNat v 60
  have : v = ((3600 * H + 60 * M : ℤ) : ℚ) + s := by
    rw [hid]
    push_cast
    ring
  rw [this, roundHalfUp_int_add]
  ring

/-- `secondsToHms` on a nonnegative value, with the two integer
components rendered through `renderNat`. -/
theorem secondsToHms_render (v : ℚ) (hv : 0 ≤ v) :
    secondsToHms (some (some v)) =
      renderNat (⌊qdivNat v 3600⌋).toNat ++ ':' ::
        (padStart 2 '0' (renderNat (⌊qdivNat (jsModNat v 3600) 60⌋).toNat) ++
          ':' :: padStart 5 '0' (toFixed2 (jsModNat v 60))) := by
  obtain ⟨_, hH0, hM0, _, _, _⟩ := hms_decomp v hv
  show jsToStringInt ⌊qdivNat v 3600⌋ ++ ':' ::
      (padStart 2 '0' (jsToStringInt ⌊qdivNat (jsModNat v 3600) 60⌋) ++
        ':' :: padStart 5 '0' (toFixed2 (jsModNat v 60))) = _
  unfold jsToStringInt
  rw [if_neg (not_lt.mpr hH0), if_neg (not_lt.mpr hM0)]

/-- `toFixed2` of a nonnegative value renders `n/100 . n%100` for
`n = roundHalfUp q`. -/
theorem toFixed2_render {q : ℚ} (h : 0 ≤ q) :
    toFixed2 q = renderNat ((roundHalfUp q).toNat / 100) ++
      '.' :: twoDigits ((roundHalfUp q).toNat % 100) := by
  unfold toFixed2
  rw [if_neg (not_lt.mpr (roundHalfUp_nonneg h))]

/-- `toFixed2` depends on its argument only through `roundHalfUp`. -/
theorem toFixed2_congr {q₁ q₂ : ℚ} (h : roundHalfUp q₁ = roundHalfUp q₂) :
    toFixed2 q₁ = toFixed2 q₂ := by
  unfold toFixed2
  rw [h]

/-- `twoDigits` always renders exactly two characters for `k < 100`. -/
theorem twoDigits_length {k : ℕ} (h : k < 100) : (twoDigits k).length = 2 := by
  unfold twoDigits
  by_cases h10 : k < 10
  · rw [if_pos h10]
    rw [show renderNat k = [Char.ofNat ('0'.toNat + k)] from
      renderNatAux_single (k + 1) k h10 (by omega)]
    rfl
  · rw [if_neg h10]
    unfold renderNat
    conv_lhs => unfold renderNatAux
    rw [if_neg h10]
    rw [renderNatAux_single k (k / 10) (by omega) (by omega)]
    rfl

/-- `twoDigits` renders digits. -/
theorem twoDigits_digits (k : ℕ) : ∀ c ∈ twoDigits k, isDigitChar c = true := by
  unfold twoDigits
  intro c hc
  by_cases h10 : k < 10
  · rw [if_pos h10] at hc
    rcases List.mem_cons.mp hc with rfl | hc
    · decide
    · exact (renderNat_spec k).2.1 c hc
  · rw [if_neg h10] at hc
    exact (renderNat_spec k).2.1 c hc

/-- `twoDigits` parses back to its value. -/
theorem twoDigits_val (k : ℕ) : digitsToNat (twoDigits k) = k := by
  unfold twoDigits
  by_cases h10 : k < 10
  · rw [if_pos h10, digitsToNat_cons_zero]
    exact (renderNat_spec k).2.2
  · rw [if_neg h10]
    exact (renderNat_spec k).2.2

/-- `parseInt` of a zero-padded rendering. -/
theorem jsParseInt_pad_render (j n : ℕ) :
    jsParseInt (padStart j '0' (renderNat n)) = some (n : ℤ) := by
  obtain ⟨hne, hdig, hval⟩ := renderNat_spec n
  unfold padStart
  rw [jsParseInt_digits]
  · rw [digitsToNat_replicate_zero, hval]
  · intro h
    exact hne (List.append_eq_nil.mp h).2
  · intro c hc
    rcases List.mem_append.mp hc with hc | hc
    · rw [List.eq_of_mem_replicate hc]
      decide
    · exact hdig c hc

/-- `parseFloat` of the zero-padded `toFixed2` rendering of a
nonnegative value recovers the rounded value over denominator 100. -/
theorem jsParseFloat_pad5_toFixed2 {q : ℚ} (h : 0 ≤ q) :
    jsParseFloat (padStart 5 '0' (toFixed2 q)) =
      some (mkRat (roundHalfUp q) 100) := by
  set n : ℕ := (roundHalfUp q).toNat with hn
  have hmod : n % 100 < 100 := Nat.mod_lt _ (by omega)
  obtain ⟨hne, hdig, hval⟩ := renderNat_spec (n / 100)
  have hsplit : padStart 5 '0' (toFixed2 q) =
      (List.replicate (5 - (toFixed2 q).length) '0' ++ renderNat (n / 100)) ++
        '.' :: twoDigits (n % 100) := by
    rw [toFixed2_render h, ← hn]
    unfold padStart
    rw [List.append_assoc]
  rw [hsplit]
  rw [jsParseFloat_digits_frac]
  · rw [digitsToNat_replicate_zero, hval, twoDigits_length hmod, twoDigits_val]
    have hcast : ((n / 100 : ℕ) : ℤ) * 10 ^ 2 + ((n % 100 : ℕ) : ℤ) = (n : ℤ) := by
      push_cast
      omega
    rw [show (10 : ℕ) ^ 2 = 100 from rfl, hcast]
    rw [show ((n : ℤ)) = roundHalfUp q from Int.toNat_of_nonneg (roundHalfUp_nonneg h)]
  · intro hcon
    exact hne (List.append_eq_nil.mp hcon).2
  · intro c hc
    rcases List.mem_append.mp hc with hc | hc
    · rw [List.eq_of_mem_replicate hc]
      decide
    · exact hdig c hc
  · exact twoDigits_digits _

/-- Characters of `toFixed2` on a nonnegative value are digits or the
decimal dot. -/
theorem toFixed2_mem {q : ℚ} (h : 0 ≤ q) :
    ∀ c ∈ toFixed2 q, isDigitChar c = true ∨ c = '.' := by
  rw [toFixed2_render h]
  intro c hc
  rcases List.mem_append.mp hc with hc | hc
  · exact Or.inl ((renderNat_spec _).2.1 c hc)
  · rcases List.mem_cons.mp hc with rfl | hc
    · exact Or.inr rfl
    · exact Or.inl (twoDigits_digits _ c hc)

/-- `jsParseInt` of a bare rendering. -/
theorem jsParseInt_render (n : ℕ) : jsParseInt (renderNat n) = some (n : ℤ) := by
  obtain ⟨hne, hdig, hval⟩ := renderNat_spec n
  rw [jsParseInt_digits hne hdig, hval]

/-- Decoding the rendered timecode of a nonnegative value yields the
value rounded to hundredths: `parseTime ∘ formatTimecode` is rounding. -/
theorem parseTime_encode (v : ℚ) (hv : 0 ≤ v) :
    parseTime (secondsToHms (some (some v))) =
      some (mkRat (roundHalfUp v) 100) := by
  obtain ⟨hid, hH0, hM0, hM60, hs0, hs60⟩ := hms_decomp v hv
  set H : ℤ := ⌊qdivNat v 3600⌋ with hH
  set M : ℤ := ⌊qdivNat (jsModNat v 3600) 60⌋ with hM
  set s : ℚ := jsModNat v 60 with hs
  obtain ⟨hne1, hdig1, hval1⟩ := renderNat_spec H.toNat
  obtain ⟨hne2, hdig2, hval2⟩ := renderNat_spec M.toNat
  have hpad2 : ∀ c ∈ padStart 2 '0' (renderNat M.toNat), isDigitChar c = true := by
    intro c hc
    rcases List.mem_append.mp hc with hc | hc
    · rw [List.eq_of_mem_replicate hc]
      decide
    · exact hdig2 c hc
  have hpad5 : ∀ c ∈ padStart 5 '0' (toFixed2 s),
      isDigitChar c = true ∨ c = '.' := by
    intro c hc
    rcases List.mem_append.mp hc with hc | hc
    · rw [List.eq_of_mem_replicate hc]
      exact Or.inl (by decide)
    · exact toFixed2_mem hs0 c hc
  have hnw : ∀ x ∈ renderNat H.toNat ++ ':' ::
      (padStart 2 '0' (renderNat M.toNat) ++ ':' :: padStart 5 '0' (toFixed2 s)),
      isWsChar x = false := by
    intro x hx
    rcases List.mem_append.mp hx with hx | hx
    · exact digit_not_ws (hdig1 x hx)
    · rcases List.mem_cons.mp hx with rfl | hx
      · rfl
      · rcases List.mem_append.mp hx with hx | hx
        · exact digit_not_ws (hpad2 x hx)
        · rcases List.mem_cons.mp hx with rfl | hx
          · rfl
          · rcases hpad5 x hx with h | rfl
            · exact digit_not_ws h
            · rfl
  have hsplit : splitOnSep ':' (trimChars (renderNat H.toNat ++ ':' ::
      (padStart 2 '0' (renderNat M.toNat) ++ ':' ::
        padStart 5 '0' (toFixed2 s)))) =
      [renderNat H.toNat, padStart 2 '0' (renderNat M.toNat),
        padStart 5 '0' (toFixed2 s)] := by
    rw [trimChars_eq_self hnw]
    rw [splitOnSep_append fun x hx => digit_ne (hdig1 x hx) (by decide)]
    rw [splitOnSep_append fun x hx => digit_ne (hpad2 x hx) (by decide)]
    rw [splitOnSep_not_mem fun x hx => by
      rcases hpad5 x hx with h | rfl
      · exact digit_ne h (by decide)
      · decide]
  rw [secondsToHms_render v hv, ← hH, ← hM, ← hs]
  rw [parseTime_formula3 hsplit (jsParseInt_render H.toNat)
    (jsParseInt_pad_render 2 M.toNat) (jsParseFloat_pad5_toFixed2 hs0)]
  have hrv : roundHalfUp v = 360000 * H + 6000 * M + roundHalfUp s := by
    rw [roundHalfUp_decomp v hv, ← hH, ← hM, ← hs]
  have hn0 : 0 ≤ roundHalfUp s := roundHalfUp_nonneg hs0
  congr 1
  rw [mkRat_cast_eq_div, mkRat_cast_eq_div, hrv]
  rw [Int.toNat_of_nonneg hH0, Int.toNat_of_nonneg hM0]
  push_cast
  field_simp
  ring

/-- The components `secondsToHms` computes from an explicitly
decomposed value are exactly its decomposition. -/
theorem hms_components_decomp (H M : ℤ) (x : ℚ) (hH : 0 ≤ H) (hM0 : 0 ≤ M)
    (hM : M < 60) (hx0 : 0 ≤ x) (hx : x < 60) :
    ⌊qdivNat (((3600 * H + 60 * M : ℤ) : ℚ) + x) 3600⌋ = H ∧
    ⌊qdivNat (jsModNat (((3600 * H + 60 * M : ℤ) : ℚ) + x) 3600) 60⌋ = M ∧
    jsModNat (((3600 * H + 60 * M : ℤ) : ℚ) + x) 60 = x := by
  have hM59 : (M : ℚ) ≤ 59 := by
    have h59 : M ≤ 59 := by omega
    exact_mod_cast h59
  have hMq : 0 ≤ (M : ℚ) := by exact_mod_cast hM0
  have hHq : 0 ≤ (H : ℚ) := by exact_mod_cast hH
  set w : ℚ := ((3600 * H + 60 * M : ℤ) : ℚ) + x with hw
  have hw0 : 0 ≤ w := by
    rw [hw]
    push_cast
    nlinarith
  have c1 : ⌊qdivNat w 3600⌋ = H := by
    rw [qdivNat_spec]
    rw [show w = ((H * 3600 : ℤ) : ℚ) + (60 * (M : ℚ) + x) by rw [hw]; push_cast; ring]
    rw [show ((3600 : ℕ) : ℚ) = (3600 : ℚ) by norm_num]
    exact floor_div_of_bounded H _ 3600 (by norm_num) (by linarith) (by push_cast; nlinarith)
  have c2pre : jsModNat w 3600 = 60 * (M : ℚ) + x := by
    rw [jsModNat_floor_form 3600 hw0]
    have : ⌊w / ((3600 : ℕ) : ℚ)⌋ = H := by
      rw [← qdivNat_spec]
      exact c1
    rw [show ((3600 : ℕ) : ℚ) = (3600 : ℚ) by norm_num] at this
    rw [show ((3600 : ℕ) : ℚ) = (3600 : ℚ) by norm_num, this, hw]
    push_cast
    ring
  have c2 : ⌊qdivNat (jsModNat w 3600) 60⌋ = M := by
    rw [c2pre, qdivNat_spec]
    rw [show (60 * (M : ℚ) + x) = ((M * 60 : ℤ) : ℚ) + x by push_cast; ring]
    rw [show ((60 : ℕ) : ℚ) = (60 : ℚ) by norm_num]
    exact floor_div_of_bounded M x 60 (by norm_num) hx0 (by push_cast; linarith)
  have c3 : jsModNat w 60 = x := by
    rw [jsModNat_floor_form 60 hw0]
    have hfl : ⌊w / ((60 : ℕ) : ℚ)⌋ = 60 * H + M := by
      rw [show w = (((60 * H + M) * 60 : ℤ) : ℚ) + x by rw [hw]; push_cast; ring]
      rw [show ((60 : ℕ) : ℚ) = (60 : ℚ) by norm_num]
      exact floor_div_of_bounded (60 * H + M) x 60 (by norm_num) hx0
        (by push_cast; linarith)
    rw [hfl, hw]
    push_cast
    ring
  exact ⟨c1, c2, c3⟩

/-- Re-encoding the decoded rendered output reproduces it: the rendered
string is a fixed point of decode→encode, provided the seconds field did
not round up to `60.00`. -/
theorem secondsToHms_fixed (v : ℚ) (hv : 0 ≤ v)
    (hnc : roundHalfUp (jsModNat v 60) < 6000) :
    secondsToHms (some (some (mkRat (roundHalfUp v) 100))) =
      secondsToHms (some (some v)) := by
  obtain ⟨hid, hH0, hM0, hM60, hs0, hs60⟩ := hms_decomp v hv
  set H : ℤ := ⌊qdivNat v 3600⌋ with hH
  set M : ℤ := ⌊qdivNat (jsModNat v 3600) 60⌋ with hM
  set s : ℚ := jsModNat v 60 with hs
  set n : ℤ := roundHalfUp s with hn
  have hn0 : 0 ≤ n := roundHalfUp_nonneg hs0
  have hwx : mkRat (roundHalfUp v) 100 =
      ((3600 * H + 60 * M : ℤ) : ℚ) + mkRat n 100 := by
    rw [show roundHalfUp v = 360000 * H + 6000 * M + n by
      rw [roundHalfUp_decomp v hv, ← hH, ← hM, ← hs, ← hn]]
    rw [mkRat_cast_eq_div, mkRat_cast_eq_div]
    push_cast
    field_simp
    ring
  have hx0 : 0 ≤ mkRat n 100 := by
    rw [mkRat_cast_eq_div]
    have : (0 : ℚ) ≤ (n : ℚ) := by exact_mod_cast hn0
    positivity
  have hx60 : mkRat n 100 < 60 := by
    rw [mkRat_cast_eq_div]
    have : (n : ℚ) < 6000 := by exact_mod_cast hnc
    rw [div_lt_iff₀ (by norm_num : (0 : ℚ) < ((100 : ℕ) : ℚ))]
    push_cast
    linarith
  obtain ⟨c1, c2, c3⟩ := hms_components_decomp H M (mkRat n 100) hH0 hM0 hM60 hx0 hx60
  have hw0 : 0 ≤ mkRat (roundHalfUp v) 100 := by
    rw [hwx]
    have : (0 : ℚ) ≤ ((3600 * H + 60 * M : ℤ) : ℚ) := by
      exact_mod_cast Int.add_nonneg (Int.mul_nonneg (by norm_num) hH0)
        (Int.mul_nonneg (by norm_num) hM0)
    linarith
  rw [secondsToHms_render _ hw0, secondsToHms_render v hv, ← hH, ← hM, ← hs]
  rw [show ⌊qdivNat (mkRat (roundHalfUp v) 100) 3600⌋ = H by rw [hwx]; exact c1]
  rw [show ⌊qdivNat (jsModNat (mkRat (roundHalfUp v) 100) 3600) 60⌋ = M by
    rw [hwx]; exact c2]
  rw [show jsModNat (mkRat (roundHalfUp v) 100) 60 = mkRat n 100 by
    rw [hwx]; exact c3]
  rw [toFixed2_congr (show roundHalfUp (mkRat n 100) = roundHalfUp s by
    rw [roundHalfUp_mkRat100, hn])]

/-! ## Claim theorems -/

/-- C3: the claim's example is refuted by the code as written: because
`parseVttFile` strips markup *before* calling `extractSpeaker`, the
voice-span branch of `extractSpeaker` can never fire, and the cue
`<v Jane>Hello there` yields speaker `"Unknown"`, not `"Jane"` — even
though `extractSpeaker` applied to the raw text does produce `"Jane"`,
showing the voice-span branch is intended but dead in the pipeline. -/
theorem claim3_vtt_voice_span_dead :
    parseVttFile ("WEBVTT\n\n00:00:01.000 --> 00:00:03.000\n<v Jane>Hello there").data =
      [⟨some 1, some 3, "Unknown".data, "Hello there".data⟩] ∧
    extractSpeaker "<v Jane>Hello there".data = ("Jane".data, "Hello there".data) ∧
    extractSpeaker (cleanVttText "<v Jane>Hello there".data) =
      ("Unknown".data, "Hello there".data) := by
  refine ⟨by decide, by decide, by decide⟩

/-- C7: an ASS `[Events]` section with a declared
`Format: Layer, Start, End, Style, Name, …, Text` and one `Dialogue:`
line whose Text field contains a comma produces exactly one transcript
line; the comma survives intact (the surplus comma-split parts are
re-joined from the last declared column on), and start/end come from the
declared Start/End columns through the timestamp codec. -/
theorem claim7_ass_comma_in_text :
    parseAssFile ("[Events]\nFormat: Layer, Start, End, Style, Name, MarginL, MarginR, MarginV, Effect, Text\nDialogue: 0,0:00:01.00,0:00:05.00,Default,Alice,0,0,0,,Hello, world").data =
      [⟨some 1, some 5, "Alice".data, "Hello, world".data⟩] := by
  decide

/-- C8: `inferTimeFromFilename` tries the separator-joined `H-M-S`
triple first (`slide_00_10_05.png` ↦ `0*3600 + 10*60 + 5 = 605`), then
the `M-S` pair, and a filename with no match infers `none`
(`undefined`), never `0`; the leftmost match decides the result. -/
theorem claim8_infer_time_from_filename :
    inferTimeFromFilename "slide_00_10_05.png".data = some 605 ∧
    inferTimeFromFilename "noinfo.png".data = none ∧
    (∀ f h m s, findTriple f = some (h, m, s) →
      inferTimeFromFilename f = some (h * 3600 + m * 60 + s)) ∧
    (∀ f m s, findTriple f = none → findPair f = some (m, s) →
      inferTimeFromFilename f = some (m * 60 + s)) ∧
    (∀ f, findTriple f = none → findPair f = none →
      inferTimeFromFilename f = none) := by
  refine ⟨by decide, by decide, ?_, ?_, ?_⟩
  · intro f h m s ht
    unfold inferTimeFromFilename
    rw [ht]
  · intro f m s ht hp
    unfold inferTimeFromFilename
    rw [ht, hp]
  · intro f ht hp
    unfold inferTimeFromFilename
    rw [ht, hp]

/-- C8 witness: the pair branch applied at a concrete filename. -/
theorem claim8_infer_time_from_filename_witness :
    inferTimeFromFilename "7-20.png".data = some 440 :=
  claim8_infer_time_from_filename.2.2.2.1 "7-20.png".data 7 20 (by decide) (by decide)

/-- C9 counterexample: `"a:b"` has the right number of colon-separated
components but non-numeric content, and `parseTime` returns NaN
(`none`), not `0`: `parseInt('a') = NaN` propagates through the sum. -/
theorem claim9_counterexample :
    parseTime "a:b".data ≠ some 0 ∧ parseTime "a:b".data = none := by
  refine ⟨by decide, by decide⟩

/-- C9 amended: `parseTime` never throws (it is total), and a string
whose colon-split yields neither two nor three parts yields exactly `0`;
but with two or three parts and a component with no leading digits the
result is NaN (`none`), not `0`. -/
theorem claim9_amended :
    (∀ s : List Char, (splitOnSep ':' (trimChars s)).length ≠ 2 →
      (splitOnSep ':' (trimChars s)).length ≠ 3 → parseTime s = some 0) ∧
    parseTime "abc".data = some 0 ∧
    parseTime "1:2:3:4".data = some 0 ∧
    parseTime "a:b".data = none ∧
    parseTime "x:y:z".data = none := by
  refine ⟨?_, by decide, by decide, by decide, by decide⟩
  intro s h2 h3
  unfold parseTime
  split
  · next heq => exact absurd (by rw [heq]; rfl) h3
  · next heq => exact absurd (by rw [heq]; rfl) h2
  · rfl

/-- C9 amended witness: the universal part applied at `""` (one part). -/
theorem claim9_amended_witness : parseTime "".data = some 0 :=
  claim9_amended.1 "".data (by decide) (by decide)

/-- Every line emitted by the VTT block decoder has non-empty text: the
guard checks the cleaned, speaker-stripped content itself. -/
theorem vttBlockToLine_text_ne_nil {b : List Char} {l : SubtitleLine}
    (h : vttBlockToLine b = some l) : l.text ≠ [] := by
  unfold vttBlockToLine at h
  dsimp only at h
  split at h
  · exact absurd h (by simp)
  · split at h
    · exact absurd h (by simp)
    · split at h
      · exact absurd h (by simp)
      · split at h
        · exact absurd h (by simp)
        · split at h
          · split at h
            · exact absurd h (by simp)
            · next hguard =>
              obtain rfl := (Option.some.inj h).symm
              push_neg at hguard
              exact hguard.2.2
          · exact absurd h (by simp)

/-- C1 amended: the VTT and plain-text parsers do maintain the
non-empty-text invariant, for every input file. -/
theorem claim1_amended (text : List Char) :
    (∀ l ∈ parseVttFile text, l.text ≠ []) ∧
    (∀ l ∈ parseTextFile text, l.text ≠ []) := by
  constructor
  · intro l hl
    rw [parseVttFile, List.mem_filterMap] at hl
    obtain ⟨b, _, hb⟩ := hl
    exact vttBlockToLine_text_ne_nil hb
  · intro l hl
    rw [parseTextFile, List.mem_filterMap] at hl
    obtain ⟨b, _, hb⟩ := hl
    dsimp only at hb
    split at hb
    · exact absurd hb (by simp)
    · next htrim =>
      obtain rfl := (Option.some.inj hb).symm
      exact htrim

/-- C1 amended witness: the VTT half applied at a concrete file and
line. -/
theorem claim1_amended_witness : ("Hello there".data : List Char) ≠ [] :=
  (claim1_amended ("WEBVTT\n\n00:00:01.000 --> 00:00:03.000\nHello there").data).1
    ⟨some 1, some 3, "Unknown".data, "Hello there".data⟩ (by decide)

/-- C1 counterexample: the ASS parser emits a `Dialogue:` line with an
empty Text field as a transcript line with empty text (it performs no
text check at all), and the SRT parser checks the raw block text before
stripping markup, so a markup-only block is emitted with empty text —
neither is dropped, refuting the claimed all-parser invariant. -/
theorem claim1_counterexample :
    (parseAssFile ("[Events]\nFormat: Layer, Start, End, Style, Name, MarginL, MarginR, MarginV, Effect, Text\nDialogue: 0,0:00:01.00,0:00:02.00,Default,Alice,0,0,0,,").data).map
      SubtitleLine.text = [[]] ∧
    (parseSrtFile ("1\n00:00:01,000 --> 00:00:02,000\n<i></i>").data).map
      SubtitleLine.text = [[]] := by
  refine ⟨by decide, by decide⟩

/-- JS `<` on two lists is asymmetric. -/
theorem lexLt_asymm : ∀ (a b : List Char), lexLt a b = true → lexLt b a = false
  | [], [] => by simp [lexLt]
  | [], _ :: _ => by simp [lexLt]
  | _ :: _, [] => by simp [lexLt]
  | x :: xs, y :: ys => by
    unfold lexLt
    rcases Nat.lt_trichotomy x.toNat y.toNat with hxy | hxy | hxy
    · intro _
      rw [if_neg (by omega), if_pos hxy]
    · intro h
      rw [if_neg (by omega), if_neg (by omega)] at h ⊢
      exact lexLt_asymm xs ys h
    · intro h
      rw [if_neg (by omega), if_pos hxy] at h
      exact absurd h (by simp)

/-- If `c < a` then `b < a` or `c < b`: the step needed for
transitivity of the non-strict order. -/
theorem lexLt_split : ∀ (a b c : List Char),
    lexLt c a = true → lexLt b a = true ∨ lexLt c b = true
  | [], _, c => fun h => by cases c <;> simp [lexLt] at h
  | _ :: _, [], _ => fun _ => Or.inl (by simp [lexLt])
  | _ :: _, _ :: _, [] => fun _ => Or.inr (by simp [lexLt])
  | x :: xs, y :: ys, z :: zs => fun h => by
    unfold lexLt at h ⊢
    rcases Nat.lt_trichotomy z.toNat x.toNat with hzx | hzx | hzx
    · rcases Nat.lt_trichotomy y.toNat x.toNat with hyx | hyx | hyx
      · exact Or.inl (by rw [if_pos hyx])
      · exact Or.inr (by rw [if_pos (by omega)])
      · exact Or.inr (by rw [if_pos (by omega)])
    · rw [if_neg (by omega), if_neg (by omega)] at h
      rcases Nat.lt_trichotomy y.toNat x.toNat with hyx | hyx | hyx
      · exact Or.inl (by rw [if_pos hyx])
      · rcases lexLt_split xs ys zs h with h' | h'
        · exact Or.inl (by rw [if_neg (by omega), if_neg (by omega)]; exact h')
        · exact Or.inr (by rw [if_neg (by omega), if_neg (by omega)]; exact h')
      · exact Or.inr (by rw [if_pos (by omega)])
    · rw [if_neg (by omega), if_pos (by omega)] at h
      exact absurd h (by simp)

instance : IsTotal SlideData slideBefore :=
  ⟨fun a b => by
    unfold slideBefore
    by_cases h : lexLt b.filename a.filename = true
    · exact Or.inr (lexLt_asymm _ _ h)
    · exact Or.inl (Bool.eq_false_iff.mpr h)⟩

instance : IsTrans SlideData slideBefore :=
  ⟨fun a b c hab hbc => by
    unfold slideBefore at hab hbc ⊢
    by_contra hne
    have h' : lexLt c.filename a.filename = true := by
      cases h : lexLt c.filename a.filename
      · exact absurd h hne
      · rfl
    rcases lexLt_split a.filename b.filename c.filename h' with h2 | h2
    · exact absurd hab (by rw [h2]; simp)
    · exact absurd hbc (by rw [h2]; simp)⟩

/-- C10: each upload batch is appended after the existing slides as one
run, and that run is a permutation of the batch sorted ascending by
filename under the JS code-unit lexicographic order (`slideBefore a b`
says the upload comparator does not require `a` after `b`, i.e.
`¬(a.filename > b.filename)`). -/
theorem claim10_upload_batch_sorted (prev : List SlideData)
    (files : List (List Char)) :
    handleSlidesUpload prev files =
      prev ++ List.insertionSort slideBefore (files.map mkSlide) ∧
    (List.insertionSort slideBefore (files.map mkSlide)).Perm (files.map mkSlide) ∧
    List.Sorted slideBefore (List.insertionSort slideBefore (files.map mkSlide)) := by
  refine ⟨rfl, List.perm_insertionSort _ _, List.sorted_insertionSort _ _⟩

/-- C4: in a batch of three slides where exactly the middle slide's
vision call fails, that slide ends `status = error` with the placeholder
analysis, the other two end `status = done` with their analyses, and the
run still issues the alignment request — the failure is isolated, the
run is not aborted. -/
theorem claim4_slide_failure_isolated {α : Type} (s1 s2 s3 : SlideData)
    (oracle : SlideData → Except (List Char) (List Char))
    (tl : List SubtitleLine) (report : Except (List Char) α)
    (a1 e2 a3 : List Char) (htl : tl ≠ [])
    (h1 : oracle s1 = .ok a1) (h2 : oracle s2 = .error e2)
    (h3 : oracle s3 = .ok a3) :
    (startProcessing true .assFile true false [s1, s2, s3] (.ok tl) oracle
        report).slides =
      [{ s1 with status := .done, analysis := some a1 },
       { s2 with status := .error, analysis := some "Error analyzing slide.".data },
       { s3 with status := .done, analysis := some a3 }] ∧
    (startProcessing true .assFile true false [s1, s2, s3] (.ok tl) oracle
        report).alignmentRequested = true := by
  obtain ⟨t0, ts, rfl⟩ := List.exists_cons_of_ne_nil htl
  have hstage : analyzeStage oracle [s1, s2, s3] =
      [{ s1 with status := .done, analysis := some a1 },
       { s2 with status := .error, analysis := some "Error analyzing slide.".data },
       { s3 with status := .done, analysis := some a3 }] := by
    simp [analyzeStage, chunksOf3, analyzeSlide, h1, h2, h3]
  unfold startProcessing
  rcases report with e | r <;> simp [hstage]

/-- C4 witness: a concrete three-slide batch whose middle slide fails. -/
theorem claim4_slide_failure_isolated_witness :
    (startProcessing true .assFile true false
        [mkSlide "a.png".data, mkSlide "b.png".data, mkSlide "c.png".data]
        (.ok [⟨some 0, some 0, "A".data, "hi".data⟩])
        (fun s => if s.filename = "b.png".data then .error "boom".data
          else .ok "seen".data)
        (Except.ok () : Except (List Char) Unit)).slides =
      [{ mkSlide "a.png".data with status := .done, analysis := some "seen".data },
       { mkSlide "b.png".data with
          status := .error, analysis := some "Error analyzing slide.".data },
       { mkSlide "c.png".data with status := .done, analysis := some "seen".data }] ∧
    (startProcessing true .assFile true false
        [mkSlide "a.png".data, mkSlide "b.png".data, mkSlide "c.png".data]
        (.ok [⟨some 0, some 0, "A".data, "hi".data⟩])
        (fun s => if s.filename = "b.png".data then .error "boom".data
          else .ok "seen".data)
        (Except.ok () : Except (List Char) Unit)).alignmentRequested = true :=
  claim4_slide_failure_isolated _ _ _ _ _ _ _ _ _
    (List.cons_ne_nil _ _) rfl rfl rfl

/-- C5 counterexample: a transcription response that fails to parse
yields `[]`, but the run then *aborts* — `startProcessing` throws
`"No transcript data found. Check your input file."` on an empty
transcript (src/App.tsx:104-106): the slide stays `pending`, no analysis
runs, and the alignment request is never issued, refuting "proceeds to
slide analysis with an empty transcript". -/
theorem claim5_counterexample :
    transcribeAudio (.error "bad json".data) = [] ∧
    startProcessing true .audioFile false true [mkSlide "a.png".data]
        (.ok (transcribeAudio (.error "bad json".data)))
        (fun _ => .ok "seen".data) (Except.ok () : Except (List Char) Unit) =
      ⟨false, some "No transcript data found. Check your input file.".data,
        [mkSlide "a.png".data], false⟩ := by
  refine ⟨rfl, by decide⟩

/-- C5 amended: `transcribeAudio` does return an empty sequence (not an
error) when the response fails to parse; but a run whose transcript
acquisition structurally succeeds with zero lines does *not* proceed —
it aborts with "No transcript data found. Check your input file.",
leaving every slide untouched and the alignment request unissued. -/
theorem claim5_amended {α : Type} (slides : List SlideData)
    (hs : slides ≠ [])
    (oracle : SlideData → Except (List Char) (List Char))
    (report : Except (List Char) α) (e : List Char) :
    transcribeAudio (.error e) = [] ∧
    startProcessing true .audioFile false true slides
        (.ok (transcribeAudio (.error e))) oracle report =
      ⟨false, some "No transcript data found. Check your input file.".data,
        slides, false⟩ := by
  obtain ⟨s0, ss, rfl⟩ := List.exists_cons_of_ne_nil hs
  exact ⟨rfl, rfl⟩

/-- C5 amended witness. -/
theorem claim5_amended_witness :
    transcribeAudio (.error "oops".data) = [] ∧
    startProcessing true .audioFile false true [mkSlide "s.png".data]
        (.ok (transcribeAudio (.error "oops".data)))
        (fun _ => .ok "seen".data) (Except.ok () : Except (List Char) Unit) =
      ⟨false, some "No transcript data found. Check your input file.".data,
        [mkSlide "s.png".data], false⟩ :=
  claim5_amended [mkSlide "s.png".data] (List.cons_ne_nil _ _) _ _ _

/-- C6 amended: the *flat-schema* request builder does enforce its
budget: whenever the serialized transcript exceeds 50000 characters, the
text passed on is the 50000-character prefix with the marker
`"\n...[TRUNCATED]"` appended — the marker is a suffix, the total length
is exactly 50015, and the first 50000 characters are those of the
serialization.  (The timeline-schema builder has no budget at all — see
the counterexample.) -/
theorem claim6_amended (t : List SubtitleLine)
    (h : 50000 < (serializeTranscriptFlat t).length) :
    buildTransText50k t = (serializeTranscriptFlat t).take 50000 ++ truncMarker ∧
    truncMarker.IsSuffix (buildTransText50k t) ∧
    (buildTransText50k t).length = 50015 ∧
    (buildTransText50k t).take 50000 = (serializeTranscriptFlat t).take 50000 := by
  have he : buildTransText50k t =
      (serializeTranscriptFlat t).take 50000 ++ truncMarker := by
    unfold buildTransText50k
    rw [if_pos h]
  have hlen : ((serializeTranscriptFlat t).take 50000).length = 50000 := by
    rw [List.length_take]
    omega
  refine ⟨he, ⟨_, he.symm⟩, ?_, ?_⟩
  · rw [he, List.length_append, hlen]
    rfl
  · rw [he, List.take_left' hlen]

/-- `joinWith` of a single rendered flat line is that line. -/
theorem serializeFlat_single (ln : SubtitleLine) :
    serializeTranscriptFlat [ln] =
      secondsToHms (some ln.start) ++ " --> ".data ++ secondsToHms (some ln.stop) ++
        " | ".data ++ ln.speaker ++ " | ".data ++ ln.text := rfl

/-- A concrete transcript whose flat serialization exceeds the
50000-character budget. -/
theorem serializeFlat_big :
    50000 < (serializeTranscriptFlat
      [⟨some 0, some 0, "A".data, List.replicate 60000 'a'⟩]).length := by
  have hb : serializeTranscriptFlat
        [⟨some 0, some 0, "A".data, List.replicate 60000 'a'⟩] =
      secondsToHms (some (some 0)) ++ " --> ".data ++ secondsToHms (some (some 0)) ++
        " | ".data ++ "A".data ++ " | ".data ++ List.replicate 60000 'a' :=
    serializeFlat_single ⟨some 0, some 0, "A".data, List.replicate 60000 'a'⟩
  have h10 : (secondsToHms (some (some 0))).length = 10 := by decide
  have hlen : ∀ X : List Char, X.length = 10 →
      50000 < (X ++ " --> ".data ++ X ++ " | ".data ++ "A".data ++ " | ".data ++
        List.replicate 60000 'a').length := by
    intro X hX
    have e1 : (" --> ".data).length = 5 := rfl
    have e2 : (" | ".data).length = 3 := rfl
    have e3 : ("A".data).length = 1 := rfl
    simp only [List.length_append, List.length_replicate, hX, e1, e2, e3]
    norm_num
  rw [hb]
  exact hlen (secondsToHms (some (some 0))) h10

/-- C6 amended witness: the flat builder at the concrete over-budget
transcript. -/
theorem claim6_amended_witness :
    buildTransText50k [⟨some 0, some 0, "A".data, List.replicate 60000 'a'⟩] =
      (serializeTranscriptFlat
        [⟨some 0, some 0, "A".data, List.replicate 60000 'a'⟩]).take 50000 ++
        truncMarker ∧
    truncMarker.IsSuffix
      (buildTransText50k [⟨some 0, some 0, "A".data, List.replicate 60000 'a'⟩]) ∧
    (buildTransText50k
      [⟨some 0, some 0, "A".data, List.replicate 60000 'a'⟩]).length = 50015 ∧
    (buildTransText50k
        [⟨some 0, some 0, "A".data, List.replicate 60000 'a'⟩]).take 50000 =
      (serializeTranscriptFlat
        [⟨some 0, some 0, "A".data, List.replicate 60000 'a'⟩]).take 50000 :=
  claim6_amended [⟨some 0, some 0, "A".data, List.replicate 60000 'a'⟩]
    serializeFlat_big

/-- `joinWith` of a single rendered line is that line. -/
theorem buildTimeline_single (ln : SubtitleLine) :
    buildTransTextTimeline [ln] =
      '[' :: (secondsToHms (some ln.start) ++ "] ".data ++ ln.speaker ++
        ": ".data ++ ln.text) := rfl

/-- C6 counterexample: the timeline-schema request builder (the schema
the specification adopts as canonical) sends a serialized transcript of
more than 80000 characters — past both budgets found in the repository —
verbatim, with no truncation marker: the marker ends in `]` while the
builder's output ends in `a`. -/
theorem claim6_counterexample :
    80000 <
      (buildTransTextTimeline
        [⟨some 0, some 0, "A".data, List.replicate 90000 'a'⟩]).length ∧
    ¬ truncMarker.IsSuffix
      (buildTransTextTimeline
        [⟨some 0, some 0, "A".data, List.replicate 90000 'a'⟩]) := by
  have hb : buildTransTextTimeline
        [⟨some 0, some 0, "A".data, List.replicate 90000 'a'⟩] =
      '[' :: (secondsToHms (some (some 0)) ++ "] ".data ++ "A".data ++ ": ".data ++
        List.replicate 90000 'a') :=
    buildTimeline_single ⟨some 0, some 0, "A".data, List.replicate 90000 'a'⟩
  have h10 : (secondsToHms (some (some 0))).length = 10 := by decide
  have hlen : ∀ X : List Char, X.length = 10 →
      80000 < ('[' :: (X ++ "] ".data ++ "A".data ++ ": ".data ++
        List.replicate 90000 'a') : List Char).length := by
    intro X hX
    have e1 : ("] ".data).length = 2 := rfl
    have e2 : ("A".data).length = 1 := rfl
    have e3 : ((": ".data)).length = 2 := rfl
    simp only [List.length_cons, List.length_append, List.length_replicate,
      hX, e1, e2, e3]
    norm_num
  have hlast : ∀ X : List Char,
      ('[' :: (X ++ "] ".data ++ "A".data ++ ": ".data ++
        List.replicate 90000 'a') : List Char).getLast? = some 'a' := by
    intro X
    rw [show (90000 : ℕ) = 89999 + 1 from rfl, List.replicate_succ',
      ← List.append_assoc, ← List.cons_append]
    exact List.getLast?_concat _
  constructor
  · rw [hb]
    exact hlen (secondsToHms (some (some 0))) h10
  · rintro ⟨p, hp⟩
    have h1 : (p ++ truncMarker).getLast? = some ']' := by
      have hm : truncMarker = "\n...[TRUNCATED".data ++ [']'] := by decide
      rw [hm, ← List.append_assoc, List.getLast?_concat]
    have h2 : (buildTransTextTimeline
        [⟨some 0, some 0, "A".data, List.replicate 90000 'a'⟩]).getLast? =
        some 'a' := by
      rw [hb]
      exact hlast (secondsToHms (some (some 0)))
    rw [hp, h2] at h1
    exact absurd (Option.some.inj h1) (by decide)

/-- C2 counterexample, two failure modes.  Comma separator: no
comma→dot normalization exists anywhere in the code, and `parseFloat`
stops at the comma, so `"0:00:01,50"` decodes to `1` (the fraction is
silently dropped) and renders `"0:00:01.00"`, not the claimed
`"0:00:01.50"`.  Seconds carry: `"0:00:59.999"` decodes to `59.999`
and encodes to `"0:00:60.00"` (the seconds field rounds up to `60.00`
with no carry into minutes); decoding that output gives `60` and
re-encoding gives `"0:01:00.00"`, a different string — so the encoded
output is not a fixed point of decode→encode. -/
theorem claim2_counterexample :
    (parseTime "0:00:01,50".data = some 1 ∧
      secondsToHms (some (parseTime "0:00:01,50".data)) = "0:00:01.00".data ∧
      "0:00:01.00".data ≠ "0:00:01.50".data) ∧
    parseTime "0:00:59.999".data = some (mkRat 59999 1000) ∧
    secondsToHms (some (parseTime "0:00:59.999".data)) = "0:00:60.00".data ∧
    parseTime "0:00:60.00".data = some 60 ∧
    secondsToHms (some (parseTime "0:00:60.00".data)) = "0:01:00.00".data ∧
    "0:01:00.00".data ≠ "0:00:60.00".data := by
  refine ⟨⟨by decide, by decide, by decide⟩,
    by decide, by decide, by decide, by decide, by decide⟩

/-- C2 amended: for every valid dot-separated timecode string of shape
`H:MM:SS(.fff)` or `MM:SS(.fff)`, `parseTime` returns the exact
arithmetic value of the digit groups, that value is nonnegative,
`parseTime ∘ secondsToHms` reproduces it rounded half-up to two
decimals, and — provided the seconds field does not round up to
`60.00` — the encoded string is a fixed point of decode→encode.  With
the comma separator the round trip does NOT preserve the value: the
code performs no comma→dot normalization (`parseSrtFile` passes raw
comma timestamps to `parseTime`), and `parseFloat` stops at the comma,
so the same string with `,` in place of `.` decodes to a value from
which the fractional digits `fd` are absent entirely (final
conjunct). -/
theorem claim2_amended (hd md sd : List Char) (fd : Option (List Char))
    (str : List Char) (v : ℚ)
    (hh1 : hd ≠ []) (hh2 : ∀ c ∈ hd, isDigitChar c = true)
    (hm1 : md ≠ []) (hm2 : ∀ c ∈ md, isDigitChar c = true)
    (hs1 : sd ≠ []) (hs2 : ∀ c ∈ sd, isDigitChar c = true)
    (hfd : ∀ f, fd = some f → ∀ c ∈ f, isDigitChar c = true)
    (hstr : str = timecodeStr3 hd md sd fd ∨ str = timecodeStr2 md sd fd)
    (hv : parseTime str = some v) :
    (str = timecodeStr3 hd md sd fd →
      v = (digitsToNat hd : ℚ) * 3600 + (digitsToNat md : ℚ) * 60 +
        ((digitsToNat sd : ℚ) + fracValOpt fd)) ∧
    (str = timecodeStr2 md sd fd →
      v = (digitsToNat md : ℚ) * 60 + ((digitsToNat sd : ℚ) + fracValOpt fd)) ∧
    0 ≤ v ∧
    parseTime (secondsToHms (some (some v))) = some (mkRat (roundHalfUp v) 100) ∧
    roundHalfUp v = ⌊v * 100 + 1 / 2⌋ ∧
    (roundHalfUp (jsModNat v 60) < 6000 →
      secondsToHms (some (some (mkRat (roundHalfUp v) 100))) =
        secondsToHms (some (some v))) ∧
    (∀ f, fd = some f →
      parseTime (timecodeStr3Comma hd md sd f) =
        some ((digitsToNat hd : ℚ) * 3600 + (digitsToNat md : ℚ) * 60 +
          (digitsToNat sd : ℚ)) ∧
      parseTime (timecodeStr2Comma md sd f) =
        some ((digitsToNat md : ℚ) * 60 + (digitsToNat sd : ℚ))) := by
  have hsec0 : 0 ≤ secValQ sd fd := secValQ_nonneg sd fd
  have hv0 : 0 ≤ v := by
    rcases hstr with heq | heq
    · rw [heq, parseTime_timecode3 hh1 hh2 hm1 hm2 hs1 hs2 hfd] at hv
      have hx := (Option.some.inj hv)
      rw [← hx]
      have h1 : (0 : ℚ) ≤ (digitsToNat hd : ℚ) * 3600 := by positivity
      have h2 : (0 : ℚ) ≤ (digitsToNat md : ℚ) * 60 := by positivity
      linarith
    · rw [heq, parseTime_timecode2 hm1 hm2 hs1 hs2 hfd] at hv
      have hx := (Option.some.inj hv)
      rw [← hx]
      have h2 : (0 : ℚ) ≤ (digitsToNat md : ℚ) * 60 := by positivity
      linarith
  refine ⟨?_, ?_, hv0, parseTime_encode v hv0, roundHalfUp_spec v,
    fun hnc => secondsToHms_fixed v hv0 hnc,
    fun f hf => ⟨parseTime_timecode3_comma hh1 hh2 hm1 hm2 hs1 hs2 (hfd f hf),
      parseTime_timecode2_comma hm1 hm2 hs1 hs2 (hfd f hf)⟩⟩
  · intro heq
    rw [heq, parseTime_timecode3 hh1 hh2 hm1 hm2 hs1 hs2 hfd] at hv
    rw [← Option.some.inj hv, secValQ_eq]
  · intro heq
    rw [heq, parseTime_timecode2 hm1 hm2 hs1 hs2 hfd] at hv
    rw [← Option.some.inj hv, secValQ_eq]

theorem claim2_amended_witness :
    parseTime (timecodeStr3 "1".data "02".data "03".data (some "5".data)) =
      some (mkRat 7447 2) ∧
    (0 ≤ mkRat 7447 2 ∧
      parseTime (secondsToHms (some (some (mkRat 7447 2)))) =
        some (mkRat (roundHalfUp (mkRat 7447 2)) 100)) := by
  refine ⟨by decide, ?_⟩
  have h := claim2_amended "1".data "02".data "03".data (some "5".data)
    (timecodeStr3 "1".data "02".data "03".data (some "5".data)) (mkRat 7447 2)
    (by decide) (by decide) (by decide) (by decide) (by decide) (by decide)
    (fun f hf => (Option.some.inj hf) ▸
      (by decide : ∀ c ∈ ("5".data : List Char), isDigitChar c = true))
    (Or.inl rfl) (by decide)
  exact ⟨h.2.2.1, h.2.2.2.1⟩

end SlideAlign
